import Mathlib

/-
Verification development for the pattern-search compression engine of the
JS-CG-tools repository (TypeScript).  JavaScript strings are modelled as
lists of UTF-16 code units (List Nat); JavaScript numbers that are provably
integer-valued in the modelled code paths are modelled as Int, and the few
places where fractional constants appear are modelled over Rat.
-/

-- the rational operations are irreducible by default, which would prevent
-- the kernel evaluation of the concrete program runs below; their bodies
-- are ordinary arithmetic
set_option allowUnsafeReducibility true in
attribute [semireducible] Rat.add Rat.mul Rat.div Rat.sub Rat.neg Rat.inv Rat.blt

set_option maxRecDepth 1000000

abbrev JSStr := List Nat

/-- strPrefix pat s is true when pat is a leading prefix of s, code unit by
code unit. -/
def strPrefix : JSStr → JSStr → Bool
  | [], _ => true
  | _ :: _, [] => false
  | a :: as, b :: bs => a == b && strPrefix as bs

/-- findSub pat s returns the least index at which pat occurs inside s,
modelling the JavaScript String.indexOf scan (none when pat is absent). -/
def findSub (pat : JSStr) : JSStr → Option Nat
  | [] => if strPrefix pat [] then some 0 else none
  | a :: t => if strPrefix pat (a :: t) then some 0 else (findSub pat t).map (· + 1)

/-- fuel-indexed implementation of the matchAndReplaceAll while loop: each
replacement consumes at least one input character, so any fuel of at least
the input length runs the loop to completion (marLoopF_irrel, marLoop_eq
below recover the direct recursion). -/
def marLoopF (orig repl : JSStr) : Nat → JSStr → JSStr
  | 0, input => input
  | fuel + 1, input =>
    if orig = [] then input
    else
      match findSub orig input with
      | none => input
      | some i =>
        input.take i ++ repl ++ marLoopF orig repl fuel (input.drop (i + orig.length))

/-- marLoop models the while loop of StringHelper.matchAndReplaceAll for the
matchExp = false branch: repeatedly find the next occurrence of orig, emit
the text before it and the replacement, and continue after the occurrence
(left to right, non-overlapping).  The JavaScript loop diverges on an empty
search string; the model returns the input unchanged in that case (every
call site passes a nonempty string). -/
def marLoop (orig repl : JSStr) (input : JSStr) : JSStr :=
  marLoopF orig repl input.length input

/-- fuel-indexed implementation of String.split; fuel at least the string
length runs the split to completion. -/
def jsSplitF (sep : JSStr) : Nat → JSStr → List JSStr
  | 0, s => [s]
  | fuel + 1, s =>
    if sep = [] then [s]
    else
      match findSub sep s with
      | none => [s]
      | some i => s.take i :: jsSplitF sep fuel (s.drop (i + sep.length))

/-- jsSplit models JavaScript String.split with a nonempty separator: the
list of fragments between the non-overlapping left-to-right occurrences of
sep.  (This is the reference definition used by the round-trip wording of
the specification: split on the pattern, join with the token.) -/
def jsSplit (sep : JSStr) (s : JSStr) : List JSStr :=
  jsSplitF sep s.length s

namespace StringHelper

/-- matchAndReplaceAll from src/utils/StringHelper.ts, matchExp = false
branch: output = prefix, then the input with every non-overlapping
occurrence of originalText replaced by replacementText (left to right),
then suffix.  The unused extraMapping/thermalMap arguments are omitted. -/
def matchAndReplaceAll (input originalText replacementText pre suf : JSStr) : JSStr :=
  pre ++ marLoop originalText replacementText input ++ suf

end StringHelper

/-- jsJoin models JavaScript Array.prototype.join: concatenate the pieces
with sep between consecutive pieces. -/
def jsJoin (sep : JSStr) : List JSStr → JSStr
  | [] => []
  | [x] => x
  | x :: y :: rest => x ++ sep ++ jsJoin sep (y :: rest)

/-- countOccurrencesStep1 models the counting loop
(pos = s.indexOf(pattern, pos + 1)) starting from pos = -1: it counts every
starting position at which pat occurs in s, so occurrences may overlap.
Used by the pattern enumerations and by the allocator binding loop. -/
def countOccurrencesStep1 (pat s : JSStr) : Nat :=
  (List.range (s.length + 1)).countP (fun i => strPrefix pat (s.drop i))

/-- fuel-indexed implementation of the non-overlapping counting loop; fuel
at least the string length runs the count to completion. -/
def countNonOverlappingF (pat : JSStr) : Nat → JSStr → Nat
  | 0, _ => 0
  | fuel + 1, s =>
    if pat = [] then 0
    else
      match findSub pat s with
      | none => 0
      | some i => 1 + countNonOverlappingF pat fuel (s.drop (i + pat.length))

/-- countNonOverlapping models the counting loop that advances the search
position by the pattern length after each hit (pos += pattern.length), as in
updatePatternStats: non-overlapping occurrences, left to right. -/
def countNonOverlapping (pat : JSStr) (s : JSStr) : Nat :=
  countNonOverlappingF pat s.length s

/-- byte length of a single code unit under UTF-8 style encoding. -/
def unitByteLen (c : Nat) : Nat := if c < 128 then 1 else if c < 2048 then 2 else 3

/-- getByteLength models encodeURI(s).replace(percent triple, one char).length
as used by Crusher, RegPack2 and the pattern analyser: the UTF-8 byte count
of the string, where a surrogate pair (high unit then low unit) encodes to 4
bytes.  encodeURI throws on a lone surrogate; the model counts it as 3
(no claim reaches that case). -/
def getByteLength : JSStr → Nat
  | [] => 0
  | c :: rest =>
    if 0xd800 ≤ c ∧ c ≤ 0xdbff then
      match rest with
      | d :: rest2 =>
        if 0xdc00 ≤ d ∧ d ≤ 0xdfff then 4 + getByteLength rest2
        else 3 + getByteLength (d :: rest2)
      | [] => 3
    else unitByteLen c + getByteLength rest

/-- getEscapedByteLength: byte length after doubling every backslash
(code 92), as in getByteLength(inString.replace(backslash, two)). -/
def getEscapedByteLength (s : JSStr) : Nat := getByteLength (marLoop [92] [92, 92] s)

/-- jsCharCodeAt models String.charCodeAt; out-of-range reads yield NaN in
JavaScript and are modelled as 0 (every modelled call site is in range). -/
def jsCharCodeAt (s : JSStr) (i : Nat) : Nat := s.getD i 0

/-- jsSubstr models String.substr(i, len) for in-range nonnegative
arguments. -/
def jsSubstr (s : JSStr) (i len : Nat) : JSStr := (s.drop i).take len

/-- the Match record from src/types/index.ts.  gain is integer valued;
score is rational because the Crusher computes it from the configurable
rational weights (elsewhere score is simply the gain). -/
structure Match where
  token : JSStr
  string : JSStr
  originalString : JSStr
  depends : JSStr
  usedBy : JSStr
  gain : Int
  copies : Nat
  len : Nat
  score : Rat
  cleared : Bool
  newOrder : Nat
  deriving DecidableEq, Repr

/-- the PackerOptions record from src/types/index.ts, restricted to the
fields the modelled code reads.  A numeric option set to 0 models an absent
option (JavaScript falsy default selection). -/
structure PackerOptions where
  crushGainFactor : Rat := 1
  crushLengthFactor : Rat := 0
  crushCopiesFactor : Rat := 0
  crushTiebreakerFactor : Rat := 1
  useES6 : Bool := true
  beamWidth : Nat := 0
  branchFactor : Nat := 0
  maxReplacements : Nat := 0
  lookAheadDepth : Nat := 0
  prioritizeHighestGain : Bool := false
  deriving DecidableEq, Repr

/-- state of the substring enumeration: the pattern list built so far and
the keys of the matches record (the enumeration only ever tests key
membership on it). -/
structure FindState where
  patterns : List Match
  matchesKeys : List JSStr
  deriving Repr

/-- one cell of the substring enumeration shared by
PatternAnalyzer.findAllPotentialPatterns and
RegPack2.findAllPotentialPatterns (textually identical in the source up to
the length cap): examine the substring of the given length starting at i,
skip it when it would split a surrogate pair or was already considered,
otherwise count its occurrences and record it when it occurs at least
twice. -/
def findCell (s : JSStr) (length : Nat) (st : FindState) (i : Nat) : FindState :=
  let beginCode := jsCharCodeAt s i
  let endCode := jsCharCodeAt s (i + length - 1)
  if (beginCode < 0xdc00 ∨ beginCode > 0xdfff) ∧ (endCode < 0xd800 ∨ endCode > 0xdbff) then
    let pattern := jsSubstr s i length
    if pattern ∈ st.matchesKeys then st
    else
      let count := countOccurrencesStep1 pattern s
      if 2 ≤ count then
        let patternLength := getEscapedByteLength pattern
        let gain : Int := (count : Int) * patternLength - count - patternLength - 2
        let newMatch : Match :=
          { token := [], string := pattern,
            originalString := pattern, depends := [], usedBy := [],
            gain := gain, copies := count, len := patternLength,
            score := (gain : Rat), cleared := false, newOrder := 9999 }
        { patterns := st.patterns ++ [newMatch],
          matchesKeys := st.matchesKeys ++ [pattern] }
      else st
  else st

/-- descending list of candidate lengths, cap down to 2. -/
def lengthsDesc (cap : Nat) : List Nat := (List.range' 2 (cap - 1)).reverse

/-- run the substring enumeration for every length in the cap-down-to-2
scan and every starting index. -/
def findAllWithCap (cap : Nat) (s : JSStr) : List Match :=
  ((lengthsDesc cap).foldl
    (fun st length => (List.range (s.length - length + 1)).foldl (findCell s length) st)
    { patterns := [], matchesKeys := [] }).patterns

namespace PatternAnalyzer

/-- findAllPotentialPatterns from src/unnamed/part_000 PatternAnalyzer:
scan lengths from min(floor(length/2), 500) down to 2. -/
def findAllPotentialPatterns (s : JSStr) : List Match :=
  findAllWithCap (min (s.length / 2) 500) s

/-- updatePatternStats from PatternAnalyzer (duplicated verbatim in
RegPack2.ts): recount the non-overlapping occurrences of each pattern in
text, refresh copies (at least 1), gain and score, then remove every
pattern with fewer than two occurrences or non-positive gain. -/
def updatePatternStats (patterns : List Match) (text : JSStr) : List Match :=
  (patterns.map (fun p =>
      let count := countNonOverlapping p.string text
      { p with copies := max count 1,
               gain := (count : Int) * p.len - count - p.len - 2,
               score := (((count : Int) * p.len - count - p.len - 2 : Int) : Rat) })).filter
    (fun p => decide (2 ≤ p.copies ∧ 0 < p.gain))

/-- ordering used by PatternAnalyzer.sortPatterns: higher gain first, then
higher len, then higher copies (the JavaScript comparator b.gain - a.gain /
b.len - a.len / b.copies - a.copies). -/
def patLE (a b : Match) : Prop :=
  b.gain < a.gain ∨ (a.gain = b.gain ∧
    (b.len < a.len ∨ (a.len = b.len ∧ b.copies ≤ a.copies)))

instance : DecidableRel patLE := fun a b =>
  inferInstanceAs (Decidable (b.gain < a.gain ∨ (a.gain = b.gain ∧
    (b.len < a.len ∨ (a.len = b.len ∧ b.copies ≤ a.copies)))))

instance : IsTotal Match patLE := ⟨by intro a b; unfold patLE; omega⟩

instance : IsTrans Match patLE := ⟨by intro a b c; unfold patLE; omega⟩

/-- sortPatterns from PatternAnalyzer: stable sort by the gain/len/copies
comparator (JavaScript Array.sort is stable). -/
def sortPatterns (patterns : List Match) : List Match :=
  patterns.insertionSort patLE

end PatternAnalyzer

namespace RegPack2

/-- findAllPotentialPatterns from src/models/RegExpPacker... RegPack2.ts:
identical to the pattern analyser enumeration except that the length cap is
min(100, floor(length/2)). -/
def findAllPotentialPatterns (s : JSStr) : List Match :=
  findAllWithCap (min 100 (s.length / 2)) s

end RegPack2

namespace GainPredictor

/-- Map.prototype.set semantics for the prediction cache: update the entry
when the key is present, otherwise append it. -/
def cacheSet (cache : List (JSStr × Int)) (key : JSStr) (val : Int) : List (JSStr × Int) :=
  if cache.any (fun e => e.1 == key) then
    cache.map (fun e => if e.1 == key then (e.1, val) else e)
  else cache ++ [(key, val)]

/-- token search of the predictor: the first character code from 122 down
to 1 that occurs neither in the text nor among the tokens already used on
this prediction path. -/
def findFreeToken (text : JSStr) (usedTokens : List Nat) : Option Nat :=
  (List.range' 1 122).reverse.find? (fun i => decide (i ∉ text) && decide (i ∉ usedTokens))

/-- the recursion of predictMultiLevelGain, indexed by the remaining
look-ahead budget lookAheadDepth - depth (the only use the source makes of
the two depth arguments is the guard depth >= lookAheadDepth, and the
recursive call increments depth, so the budget decreases by one per
level). -/
def predictMLG : Nat → List (JSStr × Int) → JSStr → List Match → List Nat →
    Int × List (JSStr × Int)
  | 0, cache, text, _, _ =>
    (match cache.find? (fun e => e.1 == text) with
     | some e => (e.2, cache)
     | none => (0, cache))
  | budget + 1, cache, text, availablePatterns, usedTokens =>
    match cache.find? (fun e => e.1 == text) with
    | some e => (e.2, cache)
    | none =>
      if availablePatterns = [] then (0, cache)
      else
        let patterns := PatternAnalyzer.sortPatterns
          (PatternAnalyzer.updatePatternStats availablePatterns text)
        match patterns with
        | [] => (0, cacheSet cache text 0)
        | pattern :: rest =>
          if pattern.gain ≤ 0 then (0, cacheSet cache text 0)
          else
            match findFreeToken text usedTokens with
            | none => (pattern.gain, cacheSet cache text pattern.gain)
            | some c =>
              let newText := StringHelper.matchAndReplaceAll text pattern.string [c] []
                ([c] ++ pattern.string)
              let remainingPatterns := (pattern :: rest).filter
                (fun p => decide (p.string ≠ pattern.string))
              let fc := predictMLG budget cache newText remainingPatterns
                (usedTokens ++ [c])
              let result := pattern.gain + fc.1
              (result, cacheSet fc.2 text result)

/-- predictMultiLevelGain from the GainPredictor used by BeamSearchSolver
(discount factor 1.0, hence integer valued): memoised greedy look-ahead.
The cache is keyed by the text alone, exactly as in the source; it is
threaded through the recursion and returned alongside the prediction. -/
def predictMultiLevelGain (cache : List (JSStr × Int)) (text : JSStr)
    (availablePatterns : List Match) (lookAheadDepth depth : Nat)
    (usedTokens : List Nat) : Int × List (JSStr × Int) :=
  predictMLG (lookAheadDepth - depth) cache text availablePatterns usedTokens

end GainPredictor

namespace BeamSearchSolver

/-- the beam search state from src/unnamed/part_003.  The id, parent,
lastPattern and lastGain fields feed only the search-graph recording, which
does not influence the returned solution, and are omitted. -/
structure State where
  text : JSStr
  tokens : JSStr
  replacements : List Match
  availablePatterns : List Match
  score : Int
  predictedScore : Int
  depth : Nat
  deriving DecidableEq, Repr

/-- the token alphabet Q of findOptimalReplacements: character codes 1..126
excluding 96 (backtick, which is also the default string delimiter), 13 (CR)
and 92 (backslash). -/
def beamQ : List Nat :=
  (List.range' 1 126).filter (fun i => decide (i ≠ 96) && decide (i ≠ 13) && decide (i ≠ 92))

/-- token search of the expansion: for j from 122 down to 1, the first Q[j]
that does not occur in the text (all such j are within the bounds of Q, so
the j < Q.length test always passes). -/
def findFreeQToken (text : JSStr) : Option Nat :=
  ((List.range' 1 122).reverse.filterMap (fun j => beamQ.get? j)).find?
    (fun q => decide (q ∉ text))

/-- comparator of BeamSearchSolver.sortCandidates as an integer: when
prioritizeHighestGain is set and the cumulative scores differ, the score
difference decides; otherwise the predictedScore difference decides when
nonzero (both predictions are always assigned and integer valued, because
the predictor discount factor is 1.0, so the source test that the absolute
difference exceeds 0.1 is equivalent to inequality); otherwise the score
difference decides. -/
def candCmp (opts : PackerOptions) (a b : State) : Int :=
  if opts.prioritizeHighestGain = true ∧ a.score ≠ b.score then b.score - a.score
  else if a.predictedScore ≠ b.predictedScore then b.predictedScore - a.predictedScore
  else b.score - a.score

/-- a sorts no later than b when the comparator is nonpositive. -/
def candLE (opts : PackerOptions) (a b : State) : Prop := candCmp opts a b ≤ 0

instance candLEDec (opts : PackerOptions) : DecidableRel (candLE opts) := fun a b =>
  inferInstanceAs (Decidable (candCmp opts a b ≤ 0))

instance (opts : PackerOptions) : IsTotal State (candLE opts) :=
  ⟨by
    intro a b
    unfold candLE candCmp
    cases opts.prioritizeHighestGain <;> simp <;> omega⟩

instance (opts : PackerOptions) : IsTrans State (candLE opts) :=
  ⟨by
    intro a b c
    unfold candLE candCmp
    cases opts.prioritizeHighestGain <;> simp <;> omega⟩

/-- sortCandidates from BeamSearchSolver: stable sort by the comparator
(JavaScript Array.sort is stable, and the comparator is consistent here
because predictions are integers). -/
def sortCandidates (opts : PackerOptions) (cands : List State) : List State :=
  cands.insertionSort (candLE opts)

/-- the seenTexts deduplication loop of findOptimalReplacements: keep the
first candidate carrying each text, in list order. -/
def dedupByText (seen : List JSStr) : List State → List State
  | [] => []
  | c :: cs =>
    if c.text ∈ seen then dedupByText seen cs
    else c :: dedupByText (seen ++ [c.text]) cs

/-- accumulator of the expansion pass over the beam: the candidate list and
the predictor cache. -/
structure ExpandAcc where
  candidates : List State
  cache : List (JSStr × Int)
  deriving DecidableEq, Repr

/-- the map phase of updatePatternStats without the removal pass.  In the
source the merged array shares its Match objects with
state.availablePatterns, so the in-place stats update rewrites the records
of the state that is re-added to the candidate list, while the removal
splices only the merged copy of the array. -/
def updateStatsNoRemove (patterns : List Match) (text : JSStr) : List Match :=
  patterns.map (fun p =>
    let count := countNonOverlapping p.string text
    { p with copies := max count 1,
             gain := (count : Int) * p.len - count - p.len - 2,
             score := (((count : Int) * p.len - count - p.len - 2 : Int) : Rat) })

/-- expansion of one beam state, the body of the for-of loop over the beam
inside findOptimalReplacements: skip exhausted states, otherwise discover
new patterns in the current text, merge them with the still-available ones
(deduplicated by string, insertion order kept), refresh the statistics,
branch on the top patterns (creating a child with a fresh token, the
rewritten text and its prediction), and finally re-add the state itself.
The search-graph recording and the onProgress notification are omitted:
they do not influence the returned solution. -/
def expandState (opts : PackerOptions) (maxReps lookAhead : Nat)
    (acc : ExpandAcc) (state : State) : ExpandAcc :=
  if beamQ.length ≤ state.tokens.length ∨ maxReps ≤ state.replacements.length then
    { acc with candidates := acc.candidates ++ [state] }
  else
    let newPatterns := PatternAnalyzer.findAllPotentialPatterns state.text
    let mergedPatterns := newPatterns.foldl
      (fun merged np =>
        if merged.any (fun p => p.string == np.string) then merged else merged ++ [np])
      state.availablePatterns
    let sortedMerged := PatternAnalyzer.sortPatterns
      (PatternAnalyzer.updatePatternStats mergedPatterns state.text)
    let stateAfter := { state with
      availablePatterns := updateStatsNoRemove state.availablePatterns state.text }
    match sortedMerged with
    | [] => { acc with candidates := acc.candidates ++ [stateAfter] }
    | top :: _ =>
      if top.gain ≤ 0 then { acc with candidates := acc.candidates ++ [stateAfter] }
      else
        let branchFactor := if opts.branchFactor = 0 then 20 else opts.branchFactor
        let patternsToTry := min branchFactor sortedMerged.length
        let acc2 := (sortedMerged.take patternsToTry).foldl (fun a pattern =>
          if pattern.gain ≤ 0 then a
          else
            match findFreeQToken state.text with
            | none => a
            | some c =>
              let newText := StringHelper.matchAndReplaceAll state.text pattern.string
                [c] [] ([c] ++ pattern.string)
              let remainingPatterns := sortedMerged.filter
                (fun p => decide (p.string ≠ pattern.string))
              let fc := GainPredictor.predictMultiLevelGain a.cache newText
                remainingPatterns lookAhead 0 []
              let newState : State :=
                { text := newText,
                  tokens := [c] ++ state.tokens,
                  replacements := state.replacements ++ [{ pattern with token := [c] }],
                  availablePatterns := remainingPatterns,
                  score := state.score + pattern.gain,
                  predictedScore := state.score + pattern.gain + fc.1,
                  depth := state.depth + 1 }
              { candidates := a.candidates ++ [newState], cache := fc.2 }) acc
        { acc2 with candidates := acc2.candidates ++ [stateAfter] }

/-- the retention pipeline of findOptimalReplacements: sort the candidates,
deduplicate by text (keeping the first and hence best-ranked occurrence of
each text), and slice to the beam width. -/
def retainBeam (opts : PackerOptions) (w : Nat) (cands : List State) : List State :=
  (dedupByText [] (sortCandidates opts cands)).take w

/-- the retention step as the specification sentence behind claim C7 words
it, for comparison with retainBeam: deduplicate the candidate children by
their text keeping insertion order, then retain the best W by the
configured sort key. -/
def specRetainBeam (opts : PackerOptions) (w : Nat) (cands : List State) : List State :=
  (sortCandidates opts (dedupByText [] cands)).take w

/-- the loop state of findOptimalReplacements: current beam, best solution
so far, and the predictor cache. -/
structure LoopState where
  beam : List State
  best : State
  cache : List (JSStr × Int)
  deriving DecidableEq, Repr

/-- one iteration of the beam search while loop: expand every beam state,
stop when no candidate was generated, otherwise sort the candidates,
deduplicate them by text, retain the first beamWidth of them, update the
best solution from the new beam head, and decide whether the loop breaks.
Returns the new loop state, the candidate list of this iteration, and
whether the loop continues. -/
def beamIteration (opts : PackerOptions) (w maxReps lookAhead : Nat)
    (ls : LoopState) : LoopState × List State × Bool :=
  let acc := ls.beam.foldl (expandState opts maxReps lookAhead)
    { candidates := [], cache := ls.cache }
  match acc.candidates with
  | [] => ({ ls with cache := acc.cache }, [], false)
  | c0 :: cs =>
    let beam2 := retainBeam opts w (c0 :: cs)
    match beam2 with
    | [] => ({ beam := [], best := ls.best, cache := acc.cache }, c0 :: cs, false)
    | b0 :: _ =>
      let best2 := if ls.best.score < b0.score then b0 else ls.best
      let brk : Bool := decide (b0.availablePatterns = []) ||
        (match b0.availablePatterns with
         | [] => false
         | p :: _ => decide (p.gain ≤ 0)) ||
        decide (maxReps ≤ b0.replacements.length)
      ({ beam := beam2, best := best2, cache := acc.cache }, c0 :: cs, !brk)

/-- the while loop of findOptimalReplacements with its iteration budget as
fuel (maxIterations = 100000 in the source): returns the best solution and
the trace of candidate lists generated per iteration. -/
def beamLoop (opts : PackerOptions) (w maxReps lookAhead : Nat) :
    Nat → LoopState → State × List (List State)
  | 0, ls => (ls.best, [])
  | fuel + 1, ls =>
    let step := beamIteration opts w maxReps lookAhead ls
    if step.2.2 then
      let rest := beamLoop opts w maxReps lookAhead fuel step.1
      (rest.1, step.2.1 :: rest.2)
    else (step.1.best, [step.2.1])

/-- findOptimalReplacements from src/unnamed/part_003 BeamSearchSolver,
modelled up to the best solution it selects, together with the per-iteration
candidate traces.  The artefact string and textual report assembled from the
best solution afterwards do not affect which solution is selected and are
not modelled; likewise the search-graph recording. -/
def findOptimalReplacements (opts : PackerOptions) (contents : JSStr) :
    State × List (List State) :=
  let w := if opts.beamWidth = 0 then 5 else opts.beamWidth
  let lookAhead := if opts.lookAheadDepth = 0 then 150 else opts.lookAheadDepth
  let maxReps := if opts.maxReplacements = 0 then 100 else opts.maxReplacements
  let initialPatterns := PatternAnalyzer.findAllPotentialPatterns contents
  let p0 := GainPredictor.predictMultiLevelGain [] contents initialPatterns lookAhead 0 []
  let startState : State :=
    { text := contents, tokens := [], replacements := [],
      availablePatterns := initialPatterns, score := 0, predictedScore := p0.1,
      depth := 0 }
  beamLoop opts w maxReps lookAhead 100000
    { beam := [startState], best := startState, cache := p0.2 }

end BeamSearchSolver

/-- code units of an ASCII string literal. -/
def strU (s : String) : JSStr := s.data.map Char.toNat

/-- needsEscapingInCharClass from StringHelper: backslash, closing bracket,
backtick. -/
def needsEscapingInCharClass (ascii : Nat) : Bool :=
  ascii == 92 || ascii == 93 || ascii == 96

/-- hexadecimal digit code units of n, most significant first and lower
case, as produced by Number.prototype.toString(16). -/
def hexDigits (n : Nat) : JSStr := (Nat.toDigits 16 n).map Char.toNat

/-- writeCharToRegexpCharClass from StringHelper. -/
def writeCharToRegexpCharClass (charCode : Nat) : JSStr :=
  if 255 < charCode then
    [92, 117] ++ (if charCode < 4096 then [48] else []) ++ hexDigits charCode
  else if 127 < charCode then
    [92, 120] ++ hexDigits charCode
  else
    (if needsEscapingInCharClass charCode then [92] else []) ++ [charCode]

/-- writeRangeToRegexpCharClass from StringHelper: first character, a dash
when the range has more than two members, and the last character when it has
more than one; empty when the range is empty. -/
def writeRangeToRegexpCharClass (first last : Nat) : JSStr :=
  let len : Int := (last : Int) - first + 1
  (if 0 < len then writeCharToRegexpCharClass first else []) ++
    (if 2 < len then [45] else []) ++
    (if 1 < len then writeCharToRegexpCharClass last else [])

/-- getCharacterLength from StringHelper: byte length of the code point,
plus one for the backslash which needs escaping. -/
def getCharacterLength (unicode : Nat) : Nat :=
  unitByteLen unicode + (if unicode == 92 then 1 else 0)

/-- the claim-relevant markers of the free-form details report, recorded in
emission order.  The numeric pretty-printing of the full report is
presentation only and is not modelled. -/
inductive ReportItem where
  | noTokensAvailable
  | outOfTokens
  | tokenOutOfRange
  | finalCheck (passed : Bool)
  | errorMessage (msg : JSStr)
  deriving DecidableEq, Repr

/-- a ResultStage record (PackerResult in src/types) restricted to what the
claims inspect: artefact byte length, output string, report markers. -/
structure PackerResult where
  length : Int
  output : JSStr
  report : List ReportItem
  deriving DecidableEq, Repr

/-- a TokenRange entry of the allocator token list. -/
structure TokenRange where
  first : Nat
  last : Nat
  count : Nat
  cost : Nat
  oneByteTokenCount : Nat
  deriving DecidableEq, Repr

/-- one step of the token range discovery scan: byte value i is free when it
is neither the string delimiter (the default backtick, code 96) nor present
in the contents; a maximal free run is closed when an occupied byte is met,
trimming CR at the run start and CR/LF at the run end, and skipping runs
that contain only CR or LF. -/
def buildTokenRangesStep (contents : JSStr) (st : List TokenRange × Option Nat)
    (i : Nat) : List TokenRange × Option Nat :=
  if i ≠ 96 ∧ i ∉ contents then
    match st.2 with
    | none => (st.1, some i)
    | some _ => st
  else
    match st.2 with
    | none => st
    | some f0 =>
      let f := if f0 = 13 then f0 + 1 else f0
      let l0 := i - 1
      let l := if i = 11 ∨ i = 14 then l0 - 1 else l0
      if f ≤ l then
        let tokenCount := l - f + 1
        let range := writeRangeToRegexpCharClass f l
        let containsBackslash := f ≤ 92 ∧ 92 < i
        let newRange : TokenRange :=
          { first := f, last := l, count := tokenCount, cost := range.length,
            oneByteTokenCount := tokenCount - (if containsBackslash then 1 else 0) }
        (st.1 ++ [newRange], none)
      else (st.1, none)

/-- the token range discovery scan shared verbatim by
RegPack2.packToRegexpCharClass and Crusher.buildOptimizedTokenList: walk
byte values 1..126 and collect the maximal free runs; a run still open after
126 is closed to 126 without the CR trimming. -/
def buildTokenRanges (contents : JSStr) : List TokenRange :=
  let st := (List.range' 1 126).foldl (buildTokenRangesStep contents) ([], none)
  match st.2 with
  | none => st.1
  | some f0 =>
    let range := writeRangeToRegexpCharClass f0 126
    let tailRange : TokenRange :=
      { first := f0, last := 126, count := 127 - f0, cost := range.length,
        oneByteTokenCount := 127 - f0 - (if f0 ≤ 92 then 1 else 0) }
    st.1 ++ [tailRange]

/-- the sort key of the token range ordering:
10 * oneByteTokenCount - cost + first / 1000 (the fractional term is a
stable tiebreaker; floating point rounding cannot affect these comparisons
at this scale, so the rational value is faithful). -/
def rangeKey (r : TokenRange) : Rat :=
  10 * (r.oneByteTokenCount : Rat) - (r.cost : Rat) + (r.first : Rat) / 1000

/-- a sorts no later than b when its key is at least the key of b
(descending by key, stable). -/
def rangeLE (a b : TokenRange) : Prop := rangeKey b ≤ rangeKey a

instance : DecidableRel rangeLE := fun a b =>
  inferInstanceAs (Decidable (rangeKey b ≤ rangeKey a))

instance : IsTotal TokenRange rangeLE := ⟨fun a b => le_total (rangeKey b) (rangeKey a)⟩

instance : IsTrans TokenRange rangeLE :=
  ⟨fun a b c h1 h2 => le_trans h2 h1⟩

/-- the token range reordering of both allocators. -/
def sortTokenRanges (l : List TokenRange) : List TokenRange :=
  l.insertionSort rangeLE

/-- token flattening shared by both allocators: every byte of every range in
range order, CR excluded, one-byte tokens collected first and the backslash
(92, two output bytes) collected separately to be appended last. -/
def prepareTokens (tokenList : List TokenRange) : List Nat × List Nat :=
  tokenList.foldl (fun acc r =>
    (List.range' r.first (r.last + 1 - r.first)).foldl (fun a i =>
      if i = 13 then a
      else if i = 92 then (a.1, a.2 ++ [i])
      else (a.1 ++ [i], a.2)) acc) ([], [])

/-- the leading-caret repair applied to the sorted range list: when the best
range starts with the caret (94) and either there are fewer replacements
than tokens in it or it is the only range, drop the caret from the front of
the range and recompute its cost. -/
def caretFix (matchesLen : Nat) (tokenList : List TokenRange) : List TokenRange :=
  match tokenList with
  | [] => []
  | r0 :: rest =>
    if r0.first = 94 ∧ (matchesLen < r0.count ∨ rest = []) then
      let r0fixed : TokenRange :=
        { r0 with
          first := r0.first + 1,
          cost := (writeRangeToRegexpCharClass (r0.first + 1) r0.last).length,
          count := r0.count - 1,
          oneByteTokenCount := r0.oneByteTokenCount - 1 }
      r0fixed :: rest
    else r0 :: rest

/-- value of one hexadecimal digit code unit. -/
def hexVal (c : Nat) : Option Nat :=
  if 48 ≤ c ∧ c ≤ 57 then some (c - 48)
  else if 97 ≤ c ∧ c ≤ 102 then some (c - 87)
  else if 65 ≤ c ∧ c ≤ 70 then some (c - 55)
  else none

/-- one atom of a regular-expression character class: an escaped character,
a hex or unicode escape, or a literal character; returns its code and the
rest of the class text. -/
def classAtom : JSStr → Option (Nat × JSStr)
  | [] => none
  | 92 :: 120 :: a :: b :: rest =>
    match hexVal a, hexVal b with
    | some x, some y => some (16 * x + y, rest)
    | _, _ => some (120, a :: b :: rest)
  | 92 :: 117 :: a :: b :: c :: d :: rest =>
    match hexVal a, hexVal b, hexVal c, hexVal d with
    | some x, some y, some z, some w => some (4096 * x + 256 * y + 16 * z + w, rest)
    | _, _, _, _ => some (117, a :: b :: c :: d :: rest)
  | 92 :: c :: rest => some (c, rest)
  | c :: rest => some (c, rest)

/-- the members denoted by a character class source text: atoms and
atom-dash-atom ranges (a trailing dash is literal), following the
JavaScript regular expression grammar for the class strings the allocator
produces. -/
def classMembersAux : Nat → JSStr → List Nat
  | 0, _ => []
  | fuel + 1, s =>
    match classAtom s with
    | none => []
    | some (c1, rest) =>
      match rest with
      | 45 :: rest2 =>
        if rest2 = [] then [c1, 45]
        else
          match classAtom rest2 with
          | some (c2, rest3) =>
            List.range' c1 (c2 + 1 - c1) ++ classMembersAux fuel rest3
          | none => c1 :: 45 :: classMembersAux fuel rest2
      | _ => c1 :: classMembersAux fuel rest

def charClassMembers (s : JSStr) : List Nat := classMembersAux (s.length + 1) s

/-- the decode simulation loop shared by the final checks: while some
character of the class occurs in the text, take the first such occurrence as
the token, split the text on it, shift off the first fragment and rejoin
with it.  The source loop is a while without a bound; the model carries fuel
(sufficient for every concrete artefact checked here, and irrelevant for
inputs on which the loop exits normally before the fuel runs out). -/
def decodeLoop (classChars : List Nat) : Nat → JSStr → JSStr
  | 0, s => s
  | fuel + 1, s =>
    match s.find? (fun c => decide (c ∈ classChars)) with
    | none => s
    | some tok =>
      match jsSplit [tok] s with
      | [] => s
      | hd :: tl => decodeLoop classChars fuel (jsJoin hd tl)

/-- one (i, j) step of the dependency graph construction shared verbatim by
Crusher.buildDependencyGraph and RegPack2.packToRegexpCharClass: when match
i has a token that occurs in match j's original string, expand that token
back to i's original inside j's original; then, when j's original contains
i's original (i different from j), append i's token to j's depends and j's
token to i's usedBy. -/
def buildDependencyGraphStep (ms : List Match) (i j : Nat) : List Match :=
  match ms.get? i, ms.get? j with
  | some mi, some mj =>
    let ms1 :=
      if mi.token ≠ [] ∧ (findSub mi.token mj.originalString).isSome then
        ms.set j { mj with
          originalString := jsJoin mi.originalString (jsSplit mi.token mj.originalString) }
      else ms
    match ms1.get? i, ms1.get? j with
    | some mi1, some mj1 =>
      if i ≠ j ∧ (findSub mi1.originalString mj1.originalString).isSome then
        let ms2 := ms1.set j { mj1 with depends := mj1.depends ++ mi1.token }
        match ms2.get? i with
        | some mi2 => ms2.set i { mi2 with usedBy := mi2.usedBy ++ mj1.token }
        | none => ms2
      else ms1
    | _, _ => ms1
  | _, _ => ms

/-- the dependency graph construction: the double loop over all pairs. -/
def buildDependencyGraph (ms : List Match) : List Match :=
  (List.range ms.length).foldl (fun acc i =>
    (List.range ms.length).foldl (fun acc2 j => buildDependencyGraphStep acc2 i j) acc) ms

/-- clear from both allocators: remove the cleared match's token from every
match's usedBy string and set its cleared flag. -/
def clearMatch (ms : List Match) (matchIndex : Nat) : List Match :=
  match ms.get? matchIndex with
  | none => ms
  | some m =>
    let ms2 := ms.map (fun x => { x with usedBy := jsJoin [] (jsSplit m.token x.usedBy) })
    match ms2.get? matchIndex with
    | none => ms2
    | some m2 => ms2.set matchIndex { m2 with cleared := true }

/-- result of the best-match scan of the binding loop. -/
structure ScanResult where
  ms : List Match
  matchIndex : Option Nat
  bestScore : Int
  bestGain : Int
  bestCount : Nat
  negativeCleared : Bool
  deriving DecidableEq, Repr

/-- the best-match scan of the RegPack2 binding loop (findBestMatchForToken
in Crusher): among the matches that nothing still uses and that are not
cleared, count the occurrences of the original string in the current output
(position stepping by one), compute the token-cost-aware gain, track the
best nonnegative candidate by score, then gain, then count (score equals
gain here), and clear every candidate whose gain is negative. -/
def findBestForToken (regPackOutput : JSStr) (tokenCost : Nat) (ms0 : List Match) :
    ScanResult :=
  (List.range ms0.length).foldl (fun st j =>
    match st.ms.get? j with
    | none => st
    | some mj =>
      if mj.usedBy = [] ∧ mj.cleared = false then
        let count := countOccurrencesStep1 mj.originalString regPackOutput
        let gain : Int := count * ((mj.len : Int) - tokenCost) - mj.len - 2 * tokenCost
        let score := gain
        if 0 ≤ gain then
          if st.bestScore < score ∨ (score = st.bestScore ∧
              (st.bestGain < gain ∨ (gain = st.bestGain ∧ st.bestCount < count))) then
            { st with
              matchIndex := some j, bestScore := score, bestGain := gain,
              bestCount := count }
          else st
        else
          { st with ms := clearMatch st.ms j, negativeCleared := true }
      else st)
    { ms := ms0, matchIndex := none, bestScore := -999, bestGain := -1,
              bestCount := 0, negativeCleared := false }

/-- state of the binding loop. -/
structure BindLoopState where
  ms : List Match
  regPackOutput : JSStr
  tokenCount : Nat
  tokensRemaining : Bool
  gainsRemaining : Bool
  report : List ReportItem
  deriving DecidableEq, Repr

/-- one iteration of the binding loop: bail out when the token cursor walked
past the supply, otherwise scan for the best match for the next token; when
a negative-gain match was cleared during the scan nothing else happens this
iteration; when a match was chosen, record its binding order, rewrite the
output (prefix original-plus-token, occurrences replaced by the token),
clear it, and advance the token cursor; when no candidate has a nonnegative
gain the loop ends. -/
def bindingStep (availableTokens : List Nat) (st : BindLoopState) : BindLoopState :=
  if availableTokens.length ≤ st.tokenCount then { st with tokensRemaining := false }
  else
    let tokenCode := availableTokens.getD st.tokenCount 0
    let tokenCost := getCharacterLength tokenCode
    let scan := findBestForToken st.regPackOutput tokenCost st.ms
    if scan.negativeCleared then { st with ms := scan.ms }
    else
      match scan.matchIndex with
      | none => { st with ms := scan.ms, gainsRemaining := false }
      | some matchIndex =>
        match scan.ms.get? matchIndex with
        | none => { st with ms := scan.ms }
        | some mj =>
          let matchedString := mj.originalString
          let ms2 := scan.ms.set matchIndex { mj with newOrder := st.tokenCount }
          let token := [tokenCode]
          let out2 := StringHelper.matchAndReplaceAll st.regPackOutput matchedString
            token (matchedString ++ token) []
          let ms3 := clearMatch ms2 matchIndex
          let tc2 := st.tokenCount + 1
          if availableTokens.length ≤ tc2 then
            { ms := ms3, regPackOutput := out2, tokenCount := tc2,
              tokensRemaining := false, gainsRemaining := st.gainsRemaining,
              report := st.report ++ [ReportItem.outOfTokens] }
          else
            { st with ms := ms3, regPackOutput := out2, tokenCount := tc2 }

/-- the binding loop of RegPack2.packToRegexpCharClass: at most one
iteration per match record, stopping early when tokens or gains run out. -/
def bindingLoop (availableTokens : List Nat) (ms0 : List Match) (contents : JSStr) :
    BindLoopState :=
  (List.range ms0.length).foldl (fun st _ =>
    if st.tokensRemaining = true ∧ st.gainsRemaining = true then
      bindingStep availableTokens st
    else st)
    { ms := ms0, regPackOutput := contents, tokenCount := 0,
      tokensRemaining := true, gainsRemaining := true, report := [] }

/-- state of the walk that maps the last used token to its range. -/
structure LineWalkState where
  tokenList : List TokenRange
  tokenLine : Nat
  tokenIndex : Nat
  lineFound : Bool
  deriving DecidableEq, Repr

/-- one iteration of the range walk: trim an unused backslash from the
current range boundary, then test whether the last used token lies in the
current range. -/
def lineWalkStep (unusedBackslash : Bool) (lastTokenUsed : Nat)
    (st : LineWalkState) : LineWalkState :=
  if st.lineFound = true ∨ st.tokenList.length ≤ st.tokenLine then st
  else
    match st.tokenList.get? st.tokenLine with
    | none => st
    | some r0 =>
      let r1 := if unusedBackslash = true ∧ r0.first = 92 then
          { r0 with first := r0.first + 1, count := r0.count - 1 } else r0
      let r2 := if unusedBackslash = true ∧ r1.last = 92 then
          { r1 with last := r1.last - 1, count := r1.count - 1 } else r1
      let tl2 := st.tokenList.set st.tokenLine r2
      if r2.first ≤ lastTokenUsed ∧ lastTokenUsed ≤ r2.last then
        { tokenList := tl2, tokenLine := st.tokenLine,
          tokenIndex := lastTokenUsed - r2.first + 1, lineFound := true }
      else
        { tokenList := tl2, tokenLine := st.tokenLine + 1,
          tokenIndex := st.tokenIndex, lineFound := false }

/-- the while loop walking the ranges (it advances the line on every
unsuccessful iteration, so the range count bounds its iterations). -/
def lineWalk (unusedBackslash : Bool) (lastTokenUsed : Nat)
    (tl : List TokenRange) : LineWalkState :=
  (List.range (tl.length + 1)).foldl
    (fun st _ => lineWalkStep unusedBackslash lastTokenUsed st)
    { tokenList := tl, tokenLine := 0, tokenIndex := 0, lineFound := false }

/-- state of the leftover-token substitution that moves a bracket (93)
boundary token of an earlier range into the tail of the last used range. -/
structure RemainState where
  tokenList : List TokenRange
  tokenIndex : Nat
  remainingTokens : Nat
  regPackOutput : JSStr
  deriving DecidableEq, Repr

/-- one substitution step of the RegPack2 leftover handling (each collected
entry has count one): extend the last range by one token, replace the old
boundary token by the new one throughout the packed output, shrink the donor
range (skipping an exposed unused backslash), and adjust the token index
when donor and receiver coincide. -/
def replaceBracketStep (unusedBackslash : Bool) (tokenLine : Nat)
    (st : RemainState) (entry : Nat × Bool) : RemainState :=
  if 1 ≤ st.remainingTokens then
    match st.tokenList.get? entry.1 with
    | none => st
    | some cr =>
      let tokenIndex1 := st.tokenIndex + 1
      let remaining1 := st.remainingTokens - 1
      let oldToken := if entry.2 then cr.first else cr.last
      let tl1 :=
        match st.tokenList.get? tokenLine with
        | some lr => st.tokenList.set tokenLine { lr with last := lr.last + 1 }
        | none => st.tokenList
      let newToken := match tl1.get? tokenLine with | some lr => lr.last | none => 0
      let out1 := jsJoin [newToken] (jsSplit [oldToken] st.regPackOutput)
      let tl2 :=
        match tl1.get? entry.1 with
        | some cr1 => tl1.set entry.1 { cr1 with count := cr1.count - 1 }
        | none => tl1
      let tl3 :=
        match tl2.get? tokenLine with
        | some lr1 => tl2.set tokenLine { lr1 with count := lr1.count + 1 }
        | none => tl2
      let tl4 :=
        match tl3.get? entry.1 with
        | none => tl3
        | some cr2 =>
          if entry.2 then
            let cr3 := { cr2 with first := cr2.first + 1 }
            let cr4 := if unusedBackslash = true ∧ cr3.first = 92 then
                { cr3 with first := cr3.first + 1, count := cr3.count - 1 } else cr3
            tl3.set entry.1 cr4
          else
            let cr3 := { cr2 with last := cr2.last - 1 }
            let cr4 := if unusedBackslash = true ∧ cr3.last = 92 then
                { cr3 with last := cr3.last - 1, count := cr3.count - 1 } else cr3
            tl3.set entry.1 cr4
      let tokenIndex2 := if entry.1 = tokenLine then tokenIndex1 - 1 else tokenIndex1
      { tokenList := tl4, tokenIndex := tokenIndex2,
        remainingTokens := remaining1, regPackOutput := out1 }
  else st

/-- the leftover handling of RegPack2.packToRegexpCharClass: collect the
used ranges that begin or end with the bracket (93) and substitute each. -/
def replaceBracketTokens (unusedBackslash : Bool) (tokenLine : Nat)
    (st0 : RemainState) : RemainState :=
  let entries := (List.range (tokenLine + 1)).filterMap (fun i =>
    match st0.tokenList.get? i with
    | none => none
    | some r =>
      if r.first = 93 then some (i, true)
      else if r.last = 93 then some (i, false)
      else none)
  entries.foldl (replaceBracketStep unusedBackslash tokenLine) st0

/-- the final leading-caret swap: when the first range still starts with the
caret and there is more than one range, swap the first two ranges. -/
def caretSwap (tl : List TokenRange) : List TokenRange :=
  match tl with
  | r0 :: r1 :: rest => if r0.first = 94 then r1 :: r0 :: rest else tl
  | _ => tl

/-- character class assembly: concatenate the range strings of the used
ranges; a range string that begins with a dash is prepended instead so the
dash stays literal. -/
def buildClassString (tl : List TokenRange) (tokenLine : Nat) : JSStr :=
  (List.range (tokenLine + 1)).foldl (fun ts i =>
    match tl.get? i with
    | none => ts
    | some r =>
      let rangeString := writeRangeToRegexpCharClass r.first r.last
      if rangeString.getD 0 0 == 45 then rangeString ++ ts else ts ++ rangeString) []

namespace RegPack2

/-- packToRegexpCharClass from src/models/RegPack2.ts (second stage, the
token allocator and artefact builder), for the default PackerData settings
(variable name underscore, backtick delimiter, empty wrappedInit and
environment, interpreter call eval): dependency graph, token range
discovery, ordering and caret repair, the binding loop, the mapping of the
last used token to its range, leftover handling, class construction,
escaping, artefact assembly and the decode simulation final check.  The
report carries the claim-relevant markers of the details text. -/
def packToRegexpCharClass (contents : JSStr) (ms0 : List Match) : PackerResult :=
  let ms1 := buildDependencyGraph ms0
  let tokenList0 := sortTokenRanges (buildTokenRanges contents)
  let pair := prepareTokens tokenList0
  let availableTokens := pair.1 ++ pair.2
  let tokenList1 := caretFix ms1.length tokenList0
  let bind := bindingLoop availableTokens ms1 contents
  let unusedBackslash : Bool := decide (availableTokens ≠ [] ∧
    availableTokens.getLast? = some 92 ∧ bind.tokenCount < availableTokens.length)
  if tokenList1 = [] then
    { length := -1, output := [],
      report := bind.report ++ [ReportItem.noTokensAvailable, ReportItem.finalCheck false] }
  else
    let walkRes :=
      if availableTokens.length ≤ bind.tokenCount then
        { tokenList := tokenList1, tokenLine := tokenList1.length - 1,
          tokenIndex := ((tokenList1.getLast?).elim 0 TokenRange.count),
          lineFound := true : LineWalkState }
      else if 0 < bind.tokenCount then
        lineWalk unusedBackslash (availableTokens.getD (bind.tokenCount - 1) 0) tokenList1
      else
        { tokenList := tokenList1, tokenLine := 0, tokenIndex := 0,
          lineFound := false : LineWalkState }
    if walkRes.tokenList.length ≤ walkRes.tokenLine then
      { length := -1, output := [],
        report := bind.report ++ [ReportItem.tokenOutOfRange, ReportItem.finalCheck false] }
    else
      let tokenLine := walkRes.tokenLine
      let curCount := ((walkRes.tokenList.get? tokenLine).elim 0 TokenRange.count)
      let remainingTokens := curCount - walkRes.tokenIndex
      let tl2 :=
        match walkRes.tokenList.get? tokenLine with
        | some r => walkRes.tokenList.set tokenLine
            { r with last := r.last - remainingTokens, count := walkRes.tokenIndex }
        | none => walkRes.tokenList
      let rstate :=
        if 0 < remainingTokens then
          replaceBracketTokens unusedBackslash tokenLine
            { tokenList := tl2, tokenIndex := walkRes.tokenIndex,
              remainingTokens := remainingTokens, regPackOutput := bind.regPackOutput }
        else
          { tokenList := tl2, tokenIndex := walkRes.tokenIndex,
            remainingTokens := remainingTokens, regPackOutput := bind.regPackOutput }
      let tl3 := caretSwap rstate.tokenList
      let tokenString := buildClassString tl3 tokenLine
      let checked1 := StringHelper.matchAndReplaceAll rstate.regPackOutput [92] [92, 92] [] []
      let checkedString := StringHelper.matchAndReplaceAll checked1 [96] [92, 96] [] []
      let unpackBlock1 := strU "for(_=" ++ [96]
      let unpackBlock2 := [96] ++ strU ";G=/[" ++ tokenString ++
        strU "]/.exec(_);)with(_.split(G))_=join(shift("
      let unpackBlock3 := strU "));"
      let regPackOutput2 := unpackBlock1 ++ checkedString ++ unpackBlock2 ++
        unpackBlock3 ++ strU "eval(_)"
      let resultSize := getByteLength regPackOutput2
      let testString := marLoop [92, 92] [92] (marLoop [92, 96] [96] checkedString)
      let classChars := charClassMembers tokenString
      let decoded := decodeLoop classChars (testString.length + 1) testString
      { length := resultSize, output := regPackOutput2,
        report := bind.report ++ [ReportItem.finalCheck (decide (decoded = contents))] }

end RegPack2

/-- findSub with a start position, modelling String.indexOf(pat, from). -/
def findSubFrom (s pat : JSStr) (start : Nat) : Option Nat :=
  (findSub pat (s.drop start)).map (· + start)

/-- JavaScript String.substring with its clamping and argument-swapping
semantics. -/
def jsSubstring (s : JSStr) (a b : Int) : JSStr :=
  let len : Int := s.length
  let aa := max 0 (min a len)
  let bb := max 0 (min b len)
  let lo := min aa bb
  let hi := max aa bb
  (s.take hi.toNat).drop lo.toNat

/-- JavaScript object update semantics for a record used as a map: setting
an existing key updates it in place, a new key is appended. -/
def recSet (m : List (JSStr × Nat)) (k : JSStr) (v : Nat) : List (JSStr × Nat) :=
  if m.any (fun e => e.1 == k) then m.map (fun e => if e.1 == k then (k, v) else e)
  else m ++ [(k, v)]

/-- lookup in the record map. -/
def recGet (m : List (JSStr × Nat)) (k : JSStr) : Option Nat :=
  (m.find? (fun e => e.1 == k)).map (·.2)

/-- non-overlapping occurrence count guarded by the Crusher safety counter
(the loop condition increments this.safetyCounter per found occurrence and
stops at maxSafetyCount = 10000); returns the count and the new counter. -/
def countBudgetF (pat : JSStr) : Nat → JSStr → Nat → Nat × Nat
  | fuel, s, counter =>
    if pat = [] then (0, counter)
    else
      match findSub pat s with
      | none => (0, counter)
      | some i =>
        if 10000 ≤ counter then (0, counter + 1)
        else
          match fuel with
          | 0 => (0, counter + 1)
          | fuel' + 1 =>
            let r := countBudgetF pat fuel' (s.drop (i + pat.length)) (counter + 1)
            (r.1 + 1, r.2)

/-- the fuel 10001 - counter makes the fuel-exhausted arm of countBudgetF
unreachable: the recursive arm requires counter < 10000, where the fuel is
at least 2. -/
def countBudget (pat : JSStr) (s : JSStr) (counter : Nat) : Nat × Nat :=
  countBudgetF pat (10001 - counter) s counter

/-- position-stepping occurrence count guarded by the safety counter, as in
Crusher.findBestMatchForToken. -/
def countStep1BudgetF (pat : JSStr) : Nat → JSStr → Nat → Nat × Nat
  | fuel, s, counter =>
    match findSub pat s with
    | none => (0, counter)
    | some i =>
      if 10000 ≤ counter then (0, counter + 1)
      else
        match fuel with
        | 0 => (0, counter + 1)
        | fuel' + 1 =>
          let r := countStep1BudgetF pat fuel' (s.drop (i + 1)) (counter + 1)
          (r.1 + 1, r.2)

/-- as for countBudget, the fuel exceeds every reachable recursion depth. -/
def countStep1Budget (pat : JSStr) (s : JSStr) (counter : Nat) : Nat × Nat :=
  countStep1BudgetF pat (10001 - counter) s counter

namespace Crusher

/-- one starting index of Crusher.findInitialPatterns at substring length t:
skip split surrogate pairs; when the substring has no recorded count (or a
zero count, which is falsy), search for a second occurrence from i + t and,
when found, record one plus the following non-overlapping occurrences. -/
def findInitialPatternsCell (s : JSStr) (t : Nat)
    (acc : List (JSStr × Nat) × Bool) (i : Nat) : List (JSStr × Nat) × Bool :=
  let beginCode := jsCharCodeAt s i
  let endCode := jsCharCodeAt s (i + t - 1)
  if (beginCode < 0xdc00 ∨ beginCode > 0xdfff) ∧ (endCode < 0xd800 ∨ endCode > 0xdbff) then
    let x := jsSubstr s i t
    if (recGet acc.1 x).getD 0 = 0 then
      match findSubFrom s x (i + t) with
      | none => acc
      | some j =>
        let cnt := 1 + (1 + countNonOverlapping x (s.drop (j + t)))
        (recSet acc.1 x cnt, true)
    else acc
  else acc

/-- the inner index loop of findInitialPatterns at one substring length
(the loop bound is strict: i < s.length - t). -/
def findInitialPatternsT (s : JSStr) (t : Nat) (m : List (JSStr × Nat)) :
    List (JSStr × Nat) × Bool :=
  (List.range (s.length - t)).foldl (findInitialPatternsCell s t) (m, false)

/-- the outer length loop of Crusher.findInitialPatterns: lengths ascending
from 2 while the previous pass still found a new pattern and while the
safety counter (incremented by the loop condition itself) stays below
10000. -/
def findInitialPatternsGo (s : JSStr) :
    Nat → Nat → Nat → Bool → List (JSStr × Nat) → List (JSStr × Nat) × Nat
  | 0, _, counter, _, m => (m, counter)
  | fuel + 1, t, counter, found, m =>
    if found = false then (m, counter)
    else if 10000 ≤ counter then (m, counter + 1)
    else
      let body := findInitialPatternsT s t m
      findInitialPatternsGo s fuel (t + 1) (counter + 1) body.2 body.1

/-- findInitialPatterns from Crusher.ts: run the length loop starting at 2
with the found flag initially true; the fuel bound exceeds every reachable
iteration count because the safety counter advances on each pass. -/
def findInitialPatterns (s : JSStr) (counter : Nat) : List (JSStr × Nat) × Nat :=
  findInitialPatternsGo s 10002 2 counter true []

/-- updatePatternMatches from Crusher.ts: recount each recorded pattern
against the current text (non-overlapping, safety-counter guarded) and
assign the new counts back (same keys, same order). -/
def updatePatternMatches (s : JSStr) (m : List (JSStr × Nat)) (counter : Nat) :
    List (JSStr × Nat) × Nat :=
  m.foldl (fun acc e =>
    let r := countBudget e.1 s acc.2
    (acc.1 ++ [(e.1, r.1)], r.2)) ([], counter)

/-- the selection returned by the best-match heuristics. -/
structure BestMatchSel where
  pattern : JSStr
  score : Rat
  gain : Int
  copies : Nat
  deriving DecidableEq, Repr

/-- findBestMatchBalanced from Crusher.ts, the default heuristic used by
runPacker: walk the recorded patterns; a pattern with non-positive gain is
skipped (and deleted from the record when it has fewer than two copies);
otherwise its score combines the configured weights with an entropy factor
and a density bonus.  Shannon entropy is computed in the source with
floating-point logarithms and is not shallow-embeddable; it is taken here
as an explicit function argument.  Returns the selection (none when no
pattern was chosen) and the surviving record. -/
def findBestCell (entropyFn : JSStr → Rat) (opts : PackerOptions)
    (totalLength : Nat) (acc : List (JSStr × Nat) × JSStr × Rat × Int × Nat)
    (e : JSStr × Nat) : List (JSStr × Nat) × JSStr × Rat × Int × Nat :=
  let kept := acc.1
  let best := acc.2
  let patternLength : Nat := getEscapedByteLength e.1
  let copies : Nat := e.2
  let gain : Int := (copies : Int) * (patternLength : Int) - (copies : Int) -
    (patternLength : Int) - 2
  if gain ≤ 0 then
    if copies < 2 then (kept, best) else (kept ++ [e], best)
  else
    let entropy := entropyFn e.1
    let patternDensity : Rat := ((copies : Rat) * (e.1.length : Rat)) / (totalLength : Rat)
    let entropyFactor : Rat := 1 / (entropy + (1 : Rat) / 10)
    let score : Rat := opts.crushGainFactor * (gain : Rat) +
      opts.crushLengthFactor * (patternLength : Rat) +
      opts.crushCopiesFactor * (copies : Rat) +
      entropyFactor * ((1 : Rat) / 2) + patternDensity * 2
    let bestScore := best.2.1
    let bestGain := best.2.2.1
    let bestCopies := best.2.2.2
    if bestScore < score ∨ (score = bestScore ∧ (bestGain < gain ∨
        (gain = bestGain ∧ opts.crushTiebreakerFactor * (bestCopies : Rat) <
          opts.crushTiebreakerFactor * (copies : Rat)))) then
      (kept ++ [e], (e.1, score, gain, copies))
    else (kept ++ [e], best)

def findBestMatchBalanced (entropyFn : JSStr → Rat) (opts : PackerOptions)
    (m : List (JSStr × Nat)) (totalLength : Nat) :
    Option BestMatchSel × List (JSStr × Nat) :=
  let r := m.foldl (findBestCell entropyFn opts totalLength) ([], ([], 0, 0, 0))
  if r.2.1 = [] then (none, r.1)
  else (some { pattern := r.2.1, score := r.2.2.1, gain := r.2.2.2.1,
               copies := r.2.2.2.2 }, r.1)

/-- state of the Crusher first-stage compression loop. -/
structure S1State where
  s : JSStr
  matchesRec : List (JSStr × Nat)
  tokens : JSStr
  lookup : List Match
  counter : Nat
  deriving Repr

/-- the multi-pass compression loop of Crusher.compressWithPatterns (default
BALANCED heuristic): guarded by the safety counter, find a fresh token from
the alphabet, prepend it to the token string, enumerate patterns on the
first pass or recount them afterwards, select the best match, rewrite the
recorded keys through the substitution (resetting their counts to one),
apply the substitution to the text and record the binding. -/
def crushLoop (entropyFn : JSStr → Rat) (opts : PackerOptions) :
    Nat → S1State → S1State
  | 0, st => st
  | fuel + 1, st =>
    if 10000 ≤ st.counter then { st with counter := st.counter + 1 }
    else
      let st1 : S1State := { st with counter := st.counter + 1 }
      match BeamSearchSolver.findFreeQToken st1.s with
      | none => st1
      | some c =>
        let tokens2 := [c] ++ st1.tokens
        let mp := if tokens2.length = 1 then findInitialPatterns st1.s st1.counter
          else updatePatternMatches st1.s st1.matchesRec st1.counter
        let sel := findBestMatchBalanced entropyFn opts mp.1 st1.s.length
        match sel.1 with
        | none =>
          { s := st1.s, matchesRec := sel.2, tokens := tokens2,
            lookup := st1.lookup, counter := mp.2 }
        | some best =>
          let m4 := sel.2.foldl
            (fun acc e => recSet acc (jsJoin [c] (jsSplit best.pattern e.1)) 1) sel.2
          let s2 := StringHelper.matchAndReplaceAll st1.s best.pattern [c] []
            ([c] ++ best.pattern)
          let bound : Match :=
            { token := [c], string := best.pattern, originalString := best.pattern,
              depends := [], usedBy := [], gain := best.gain, copies := best.copies,
              len := getEscapedByteLength best.pattern, score := best.score,
              cleared := false, newOrder := 9999 }
          crushLoop entropyFn opts fuel
            { s := s2, matchesRec := m4, tokens := tokens2,
              lookup := st1.lookup ++ [bound], counter := mp.2 }

/-- compressWithPatterns from Crusher.ts: the compression loop, then the
final recount of the recorded patterns against the original contents, the
analysis of leftover patterns with positive potential gain (recorded into
matchesLookup with an empty token), and the first-stage artefact assembly.
Returns the first-stage result and the matchesLookup handed to stage 2. -/
def compressWithPatterns (entropyFn : JSStr → Rat) (opts : PackerOptions)
    (contents : JSStr) : PackerResult × List Match :=
  let st := crushLoop entropyFn opts 10002
    { s := contents, matchesRec := [], tokens := [], lookup := [], counter := 0 }
  let m5 := st.matchesRec.map (fun e => (e.1, countNonOverlapping e.1 contents))
  let extras := m5.filterMap (fun e =>
    let j : Nat := getEscapedByteLength e.1
    let r : Nat := e.2
    let z : Int := (r : Int) * (j : Int) - (r : Int) - (j : Int) - 2
    if 0 < z then
      let value : Rat := opts.crushGainFactor * (z : Rat) +
        opts.crushLengthFactor * (j : Rat) + opts.crushCopiesFactor * (r : Rat)
      let extra : Match :=
        { token := [], string := e.1, originalString := e.1, depends := [],
          usedBy := [], gain := z, copies := r, len := j, score := value,
          cleared := false, newOrder := 9999 }
      some extra
    else none)
  let lookup2 := st.lookup ++ extras
  let loopInitCode := if opts.useES6 then strU ";for(i of" else strU ";for(i in G="
  let loopMemberCode := if opts.useES6 then strU "i" else strU "G[i]"
  let packed1 := StringHelper.matchAndReplaceAll st.s [92] [92, 92] [] []
  let packedString := StringHelper.matchAndReplaceAll packed1 [96] [92, 96] [] []
  let unpackBlock1 := strU "_=" ++ [96]
  let unpackBlock2 := [96] ++ loopInitCode ++ [96] ++ st.tokens ++ [96] ++
    strU ")with(_.split(" ++ loopMemberCode ++ strU "))_=join(pop("
  let unpackBlock3 := strU "));"
  let output := unpackBlock1 ++ packedString ++ unpackBlock2 ++ unpackBlock3 ++
    strU "eval(_)"
  ({ length := getByteLength output, output := output, report := [] }, lookup2)

end Crusher

namespace Crusher

/-- result of Crusher.findBestMatchForToken, with the safety counter. -/
structure ScanResultC where
  ms : List Match
  matchIndex : Option Nat
  bestScore : Rat
  bestGain : Int
  bestCount : Nat
  negativeCleared : Bool
  counter : Nat
  deriving DecidableEq, Repr

/-- findBestMatchForToken from Crusher.ts: like the RegPack2 scan, but the
score combines the configured weights, and the occurrence counting is
guarded by the safety counter. -/
def findBestMatchForToken (opts : PackerOptions) (regPackOutput : JSStr)
    (tokenCost : Nat) (ms0 : List Match) (counter0 : Nat) : ScanResultC :=
  (List.range ms0.length).foldl (fun st j =>
    match st.ms.get? j with
    | none => st
    | some mj =>
      if mj.usedBy = [] ∧ mj.cleared = false then
        let cb := countStep1Budget mj.originalString regPackOutput st.counter
        let count := cb.1
        let gain : Int := (count : Int) * ((mj.len : Int) - tokenCost) -
          (mj.len : Int) - 2 * tokenCost
        let score : Rat := opts.crushGainFactor * (gain : Rat) +
          opts.crushLengthFactor * (mj.len : Rat) +
          opts.crushCopiesFactor * (count : Rat)
        if 0 ≤ gain then
          if st.bestScore < score ∨ (score = st.bestScore ∧
              (st.bestGain < gain ∨ (gain = st.bestGain ∧
                opts.crushTiebreakerFactor * (st.bestCount : Rat) <
                  opts.crushTiebreakerFactor * (count : Rat)))) then
            { st with
              matchIndex := some j, bestScore := score, bestGain := gain,
              bestCount := count, counter := cb.2 }
          else { st with counter := cb.2 }
        else
          { st with
            ms := clearMatch st.ms j, negativeCleared := true, counter := cb.2 }
      else st)
    { ms := ms0, matchIndex := none, bestScore := -999, bestGain := -1,
      bestCount := 0, negativeCleared := false, counter := counter0 }

/-- state of the Crusher token allocation loop. -/
structure BindLoopStateC where
  ms : List Match
  regPackOutput : JSStr
  tokenCount : Nat
  tokensRemaining : Bool
  gainsRemaining : Bool
  report : List ReportItem
  counter : Nat
  deriving DecidableEq, Repr

/-- the while loop of Crusher.packWithOptimizedTokens: guarded by the safety
counter, the match budget, and the tokensRemaining / gainsRemaining flags; a
negative-gain clearance consumes an iteration without consuming a token. -/
def crusherBindLoop (opts : PackerOptions) (availableTokens : List Nat)
    (msLen : Nat) : Nat → BindLoopStateC → BindLoopStateC
  | 0, st => st
  | fuel + 1, st =>
    if 10000 ≤ st.counter then { st with counter := st.counter + 1 }
    else
      let st1 : BindLoopStateC := { st with counter := st.counter + 1 }
      if ¬ (st1.tokenCount < msLen ∧ st1.tokensRemaining = true ∧
          st1.gainsRemaining = true) then st1
      else if availableTokens.length ≤ st1.tokenCount then
        { st1 with tokensRemaining := false }
      else
        let tokenCode := availableTokens.getD st1.tokenCount 0
        let tokenCost := getCharacterLength tokenCode
        let scan := findBestMatchForToken opts st1.regPackOutput tokenCost
          st1.ms st1.counter
        if scan.negativeCleared then
          crusherBindLoop opts availableTokens msLen fuel
            { st1 with ms := scan.ms, counter := scan.counter }
        else
          match scan.matchIndex with
          | none =>
            crusherBindLoop opts availableTokens msLen fuel
              { st1 with
                ms := scan.ms, gainsRemaining := false, counter := scan.counter }
          | some matchIndex =>
            match scan.ms.get? matchIndex with
            | none =>
              crusherBindLoop opts availableTokens msLen fuel
                { st1 with ms := scan.ms, counter := scan.counter }
            | some mj =>
              let matchedString := mj.originalString
              let ms2 := scan.ms.set matchIndex { mj with newOrder := st1.tokenCount }
              let token := [tokenCode]
              let out2 := StringHelper.matchAndReplaceAll st1.regPackOutput
                matchedString token (matchedString ++ token) []
              let ms3 := clearMatch ms2 matchIndex
              let tc2 := st1.tokenCount + 1
              if availableTokens.length ≤ tc2 then
                crusherBindLoop opts availableTokens msLen fuel
                  { ms := ms3, regPackOutput := out2, tokenCount := tc2,
                    tokensRemaining := false, gainsRemaining := st1.gainsRemaining,
                    report := st1.report ++ [ReportItem.outOfTokens],
                    counter := scan.counter }
              else
                crusherBindLoop opts availableTokens msLen fuel
                  { st1 with
                    ms := ms3, regPackOutput := out2, tokenCount := tc2,
                    counter := scan.counter }

/-- outcome of Crusher.packWithOptimizedTokens. -/
structure PackOutC where
  ms : List Match
  regPackOutput : JSStr
  tokenCount : Nat
  tokenList : List TokenRange
  tokenLine : Nat
  tokenIndex : Nat
  unusedBackslash : Bool
  report : List ReportItem
  deriving DecidableEq, Repr

/-- packWithOptimizedTokens from Crusher.ts: the allocation loop, then the
mapping of the last used token to its range; throws (modelled as an Except
error) when no token range exists or when the walk runs past the ranges. -/
def packWithOptimizedTokens (opts : PackerOptions) (availableTokens : List Nat)
    (tokenList : List TokenRange) (ms0 : List Match) (contents : JSStr) :
    Except JSStr PackOutC :=
  let bind := crusherBindLoop opts availableTokens ms0.length 10002
    { ms := ms0, regPackOutput := contents, tokenCount := 0,
      tokensRemaining := true, gainsRemaining := true, report := [], counter := 0 }
  let unusedBackslash : Bool := decide (availableTokens ≠ [] ∧
    availableTokens.getLast? = some 92 ∧ bind.tokenCount < availableTokens.length)
  if tokenList = [] then Except.error (strU "No tokens available")
  else
    let walkRes :=
      if availableTokens.length ≤ bind.tokenCount then
        { tokenList := tokenList, tokenLine := tokenList.length - 1,
          tokenIndex := ((tokenList.getLast?).elim 0 TokenRange.count),
          lineFound := true : LineWalkState }
      else if 0 < bind.tokenCount then
        lineWalk unusedBackslash (availableTokens.getD (bind.tokenCount - 1) 0) tokenList
      else
        { tokenList := tokenList, tokenLine := 0, tokenIndex := 0,
          lineFound := false : LineWalkState }
    if walkRes.tokenList.length ≤ walkRes.tokenLine then
      Except.error (strU "Token out of range")
    else
      Except.ok
        { ms := bind.ms, regPackOutput := bind.regPackOutput,
          tokenCount := bind.tokenCount, tokenList := walkRes.tokenList,
          tokenLine := walkRes.tokenLine, tokenIndex := walkRes.tokenIndex,
          unusedBackslash := unusedBackslash, report := bind.report }

/-- one substitution step of Crusher.handleRemainingTokens: unlike the
RegPack2 variant it neither extends the last range nor rewrites the packed
output; it only moves the counts and shifts the donor boundary. -/
def handleRemainingStep (unusedBackslash : Bool) (tokenLine : Nat)
    (st : RemainState) (entry : Nat × Bool) : RemainState :=
  if 1 ≤ st.remainingTokens then
    match st.tokenList.get? entry.1 with
    | none => st
    | some _ =>
      let tokenIndex1 := st.tokenIndex + 1
      let remaining1 := st.remainingTokens - 1
      let tl2 :=
        match st.tokenList.get? entry.1 with
        | some cr1 => st.tokenList.set entry.1 { cr1 with count := cr1.count - 1 }
        | none => st.tokenList
      let tl3 :=
        match tl2.get? tokenLine with
        | some lr1 => tl2.set tokenLine { lr1 with count := lr1.count + 1 }
        | none => tl2
      let tl4 :=
        match tl3.get? entry.1 with
        | none => tl3
        | some cr2 =>
          if entry.2 then
            let cr3 := { cr2 with first := cr2.first + 1 }
            let cr4 := if unusedBackslash = true ∧ cr3.first = 92 then
                { cr3 with first := cr3.first + 1, count := cr3.count - 1 } else cr3
            tl3.set entry.1 cr4
          else
            let cr3 := { cr2 with last := cr2.last - 1 }
            let cr4 := if unusedBackslash = true ∧ cr3.last = 92 then
                { cr3 with last := cr3.last - 1, count := cr3.count - 1 } else cr3
            tl3.set entry.1 cr4
      let tokenIndex2 := if entry.1 = tokenLine then tokenIndex1 - 1 else tokenIndex1
      { tokenList := tl4, tokenIndex := tokenIndex2,
        remainingTokens := remaining1, regPackOutput := st.regPackOutput }
  else st

/-- handleRemainingTokens from Crusher.ts over the collected bracket
boundary entries. -/
def handleRemainingTokens (unusedBackslash : Bool) (tokenLine : Nat)
    (st0 : RemainState) : RemainState :=
  let entries := (List.range (tokenLine + 1)).filterMap (fun i =>
    match st0.tokenList.get? i with
    | none => none
    | some r =>
      if r.first = 93 then some (i, true)
      else if r.last = 93 then some (i, false)
      else none)
  entries.foldl (handleRemainingStep unusedBackslash tokenLine) st0

/-- buildCharacterClass from Crusher.ts: trim the last used range to the
tokens actually consumed, run the leftover handling, apply the final caret
swap and assemble the class string.  Returns the class string and the
adjusted token index. -/
def buildCharacterClass (tl : List TokenRange) (tokenLine tokenIndex : Nat)
    (unusedBackslash : Bool) : JSStr :=
  let curCount := ((tl.get? tokenLine).elim 0 TokenRange.count)
  let remainingTokens := curCount - tokenIndex
  let tl2 :=
    match tl.get? tokenLine with
    | some r => tl.set tokenLine
        { r with last := r.last - remainingTokens, count := tokenIndex }
    | none => tl
  let rstate :=
    if 0 < remainingTokens then
      handleRemainingTokens unusedBackslash tokenLine
        { tokenList := tl2, tokenIndex := tokenIndex,
          remainingTokens := remainingTokens, regPackOutput := [] }
    else
      { tokenList := tl2, tokenIndex := tokenIndex,
        remainingTokens := remainingTokens, regPackOutput := [] }
  let tl3 := caretSwap rstate.tokenList
  buildClassString tl3 tokenLine

/-- prepareFinalOutput from Crusher.ts: escape backslashes and delimiters in
the packed output and assemble the final artefact around the character
class (default variable name, delimiter and glue). -/
def prepareFinalOutput (regPackOutput tokenString : JSStr) : JSStr × Nat :=
  let checked1 := StringHelper.matchAndReplaceAll regPackOutput [92] [92, 92] [] []
  let checkedString := StringHelper.matchAndReplaceAll checked1 [96] [92, 96] [] []
  let unpackBlock1 := strU "for(_=" ++ [96]
  let unpackBlock2 := [96] ++ strU ";G=/[" ++ tokenString ++
    strU "]/.exec(_);)with(_.split(G))_=join(shift("
  let unpackBlock3 := strU "));"
  let regPackOutput2 := unpackBlock1 ++ checkedString ++ unpackBlock2 ++
    unpackBlock3 ++ strU "eval(_)"
  (regPackOutput2, getByteLength regPackOutput2)

/-- verifyUnpacking from Crusher.ts: extract the packed literal from the
artefact between the start delimiter (variable, equals, backtick) and the
first following backtick-semicolon pair, unescape it, and run the decode
simulation against the character class; reports passed or failed. -/
def verifyUnpacking (contents regPackOutput2 tokenString : JSStr) : ReportItem :=
  let startDelimiter := strU "_=" ++ [96]
  let endDelimiter := [96] ++ strU ";"
  let startIndex : Int :=
    (match findSub startDelimiter regPackOutput2 with
     | some k => (k : Int)
     | none => -1) + startDelimiter.length
  let endIndex : Int :=
    if 0 ≤ startIndex then
      match findSubFrom regPackOutput2 endDelimiter startIndex.toNat with
      | some k => (k : Int)
      | none => -1
    else -1
  let testString0 := jsSubstring regPackOutput2 startIndex endIndex
  let testString := marLoop [92, 92] [92] (marLoop [92, 96] [96] testString0)
  let classChars := charClassMembers tokenString
  let decoded := decodeLoop classChars (testString.length + 1) testString
  ReportItem.finalCheck (decide (decoded = contents))

/-- optimizeAndPackToRegexp from Crusher.ts: dependency graph, optimized
token list (range discovery, ordering, caret repair), token preparation
(after the caret repair, unlike RegPack2), the allocation loop, class
construction, final artefact and the unpacking verification. -/
def optimizeAndPackToRegexp (opts : PackerOptions) (contents : JSStr)
    (ms0 : List Match) : Except JSStr PackerResult :=
  let ms1 := buildDependencyGraph ms0
  let tokenList := caretFix ms1.length (sortTokenRanges (buildTokenRanges contents))
  let pair := prepareTokens tokenList
  let availableTokens := pair.1 ++ pair.2
  match packWithOptimizedTokens opts availableTokens tokenList ms1 contents with
  | Except.error e => Except.error e
  | Except.ok packed =>
    let tokenString := buildCharacterClass packed.tokenList packed.tokenLine
      packed.tokenIndex packed.unusedBackslash
    let final := prepareFinalOutput packed.regPackOutput tokenString
    let verdict := verifyUnpacking contents final.1 tokenString
    Except.ok
      { length := final.2, output := final.1, report := packed.report ++ [verdict] }

/-- runPacker from Crusher.ts for the default BALANCED heuristic: first
stage, then the allocator stage; any exception is converted into an error
PackerData whose two result stages carry length zero and the error message
in the report. -/
def runPacker (entropyFn : JSStr → Rat) (opts : PackerOptions) (input : JSStr) :
    List PackerResult :=
  let s1 := compressWithPatterns entropyFn opts input
  match optimizeAndPackToRegexp opts input s1.2 with
  | Except.ok r2 => [s1.1, r2]
  | Except.error msg =>
    let errorResult : PackerResult :=
      { length := 0, output := [],
        report := [ReportItem.errorMessage (strU "Error: " ++ msg)] }
    [errorResult, errorResult]

end Crusher

namespace Replacer

/-- the /[0-9]/ test of Replacer.runPacker. -/
def containsDigit (s : JSStr) : Bool := s.any (fun c => decide (48 ≤ c ∧ c ≤ 57))

/-- the error message thrown by Replacer.runPacker on a digit input. -/
def digitErrorMessage : JSStr :=
  strU "Input contains digits (0-9) which are used as tokens by Replacer"

/-- runPacker from src/models/Replacer.ts, modelled up to the compression
call: the digit precondition test and the try/catch error wrapper.  The
digit-token compression itself (compressWithDigitReplacements or the worker
path) weights candidate scores with floating-point constants and is
abstracted as the compress argument; on an input that contains a digit the
guard throws before compress is ever invoked, and the catch produces an
error PackerData with a single zero-length result whose details carry the
error message. -/
def runPacker (compress : JSStr → PackerResult) (input : JSStr) :
    List PackerResult :=
  if containsDigit input then
    [{ length := 0, output := [],
       report := [ReportItem.errorMessage (strU "Error: " ++ digitErrorMessage)] }]
  else [compress input]

end Replacer

namespace BranchSearchWorker

/-- the searching progress value at one loop depth:
0.1 + 0.8 * (depth / MAX_DEPTH) with MAX_DEPTH = 10. -/
def searchProgress (d : Nat) : Rat := ((10 + 8 * d : Nat) : Rat) / 100

/-- the progress values emitted from inside the beam search for-loop of
findBestReplacementsWithBeamSearch: at each depth, either the time-limit
notice 0.9 (and the loop breaks), or the searching notice, followed either
by the no-candidates notice 0.9 (and the loop breaks) or by the next
iteration.  Whether the time limit fires at a depth and whether the
candidate set empties there depend on the wall clock and the input and
enter as oracle functions. -/
def loopTrace (timeoutAt emptyAt : Nat → Bool) : Nat → Nat → List Rat
  | 0, _ => []
  | fuel + 1, d =>
    if timeoutAt d then [9 / 10]
    else
      searchProgress d ::
        (if emptyAt d then [9 / 10] else loopTrace timeoutAt emptyAt fuel (d + 1))

/-- the full sequence of progress values emitted by one execution of the
background worker (src/workers/branch-search.worker.ts), as exact rationals
(the source emits IEEE doubles with identical ordering): the init
acknowledgment 0.01 from the message handler, the two setup notices 0.02
and 0.05, the loop notices over at most MAX_DEPTH = 10 iterations, and the
finalizing notice 0.98 sent just before the result message. -/
def workerProgressTrace (timeoutAt emptyAt : Nat → Bool) : List Rat :=
  [1 / 100, 2 / 100, 5 / 100] ++ loopTrace timeoutAt emptyAt 10 0 ++ [98 / 100]

end BranchSearchWorker

/-! ### Supporting theorems about the embedded definitions -/

theorem strPrefix_iff (pat s : JSStr) : strPrefix pat s = true ↔ pat <+: s := by
  induction pat generalizing s with
  | nil => simp [strPrefix]
  | cons a as ih =>
    cases s with
    | nil => simp [strPrefix]
    | cons b bs =>
      simp only [strPrefix, Bool.and_eq_true, beq_iff_eq, ih, List.cons_prefix_cons]

theorem findSub_some_prefix (pat s : JSStr) (i : Nat) (h : findSub pat s = some i) :
    pat <+: s.drop i := by
  induction s generalizing i with
  | nil =>
    simp only [findSub] at h
    split at h
    · cases h; rw [← strPrefix_iff]; assumption
    · cases h
  | cons a t ih =>
    simp only [findSub] at h
    split at h
    · cases h; rw [← strPrefix_iff]; assumption
    · cases hf : findSub pat t with
      | none => rw [hf] at h; cases h
      | some j =>
        rw [hf] at h
        simp only [Option.map_some'] at h
        cases h
        simpa using ih j hf

theorem findSub_some_bound (pat s : JSStr) (i : Nat) (hp : pat ≠ [])
    (h : findSub pat s = some i) : i + pat.length ≤ s.length ∧ 0 < s.length := by
  have hpre := findSub_some_prefix pat s i h
  have hlen : pat.length ≤ (s.drop i).length := hpre.length_le
  rw [List.length_drop] at hlen
  have hplen : 0 < pat.length := List.length_pos.mpr hp
  constructor
  · omega
  · omega

theorem marLoopF_irrel (orig repl : JSStr) :
    ∀ f g input, input.length ≤ f → input.length ≤ g →
      marLoopF orig repl f input = marLoopF orig repl g input := by
  intro f
  induction f with
  | zero =>
    intro g input hf hg
    have : input = [] := List.length_eq_zero.mp (Nat.le_zero.mp hf)
    subst this
    cases g with
    | zero => rfl
    | succ g =>
      simp only [marLoopF]
      split
      · rfl
      · rename_i horig
        cases hfs : findSub orig [] with
        | none => rfl
        | some i =>
          have hb := findSub_some_bound orig [] i horig hfs
          simp at hb
  | succ f ih =>
    intro g input hf hg
    cases g with
    | zero =>
      have : input = [] := List.length_eq_zero.mp (Nat.le_zero.mp hg)
      subst this
      simp only [marLoopF]
      split
      · rfl
      · rename_i horig
        cases hfs : findSub orig [] with
        | none => rfl
        | some i =>
          have hb := findSub_some_bound orig [] i horig hfs
          simp at hb
    | succ g =>
      simp only [marLoopF]
      split
      · rfl
      · rename_i horig
        cases hfs : findSub orig input with
        | none => rfl
        | some i =>
          have hb := findSub_some_bound orig input i horig hfs
          have hplen : 0 < orig.length := List.length_pos.mpr horig
          have hdrop : (input.drop (i + orig.length)).length ≤ f ∧
              (input.drop (i + orig.length)).length ≤ g := by
            simp only [List.length_drop]
            omega
          dsimp only
          rw [ih g (input.drop (i + orig.length)) hdrop.1 hdrop.2]

/-- the one-step unfolding of marLoop, matching the source loop. -/
theorem marLoop_eq (orig repl input : JSStr) :
    marLoop orig repl input =
      if orig = [] then input
      else
        match findSub orig input with
        | none => input
        | some i =>
          input.take i ++ repl ++ marLoop orig repl (input.drop (i + orig.length)) := by
  unfold marLoop
  cases hl : input.length with
  | zero =>
    have : input = [] := List.length_eq_zero.mp hl
    subst this
    simp only [marLoopF]
    split
    · rfl
    · rename_i horig
      cases hfs : findSub orig [] with
      | none => rfl
      | some i =>
        have hb := findSub_some_bound orig [] i horig hfs
        simp at hb
  | succ n =>
    simp only [marLoopF]
    split
    · rfl
    · rename_i horig
      cases hfs : findSub orig input with
      | none => rfl
      | some i =>
        have hb := findSub_some_bound orig input i horig hfs
        have hplen : 0 < orig.length := List.length_pos.mpr horig
        dsimp only
        rw [marLoopF_irrel orig repl n (input.drop (i + orig.length)).length
          (input.drop (i + orig.length))
          (by simp only [List.length_drop]; omega) le_rfl]

theorem jsSplitF_irrel (sep : JSStr) :
    ∀ f g s, s.length ≤ f → s.length ≤ g →
      jsSplitF sep f s = jsSplitF sep g s := by
  intro f
  induction f with
  | zero =>
    intro g s hf hg
    have : s = [] := List.length_eq_zero.mp (Nat.le_zero.mp hf)
    subst this
    cases g with
    | zero => rfl
    | succ g =>
      simp only [jsSplitF]
      split
      · rfl
      · rename_i hsep
        cases hfs : findSub sep [] with
        | none => rfl
        | some i =>
          have hb := findSub_some_bound sep [] i hsep hfs
          simp at hb
  | succ f ih =>
    intro g s hf hg
    cases g with
    | zero =>
      have : s = [] := List.length_eq_zero.mp (Nat.le_zero.mp hg)
      subst this
      simp only [jsSplitF]
      split
      · rfl
      · rename_i hsep
        cases hfs : findSub sep [] with
        | none => rfl
        | some i =>
          have hb := findSub_some_bound sep [] i hsep hfs
          simp at hb
    | succ g =>
      simp only [jsSplitF]
      split
      · rfl
      · rename_i hsep
        cases hfs : findSub sep s with
        | none => rfl
        | some i =>
          have hb := findSub_some_bound sep s i hsep hfs
          have hplen : 0 < sep.length := List.length_pos.mpr hsep
          have hdrop : (s.drop (i + sep.length)).length ≤ f ∧
              (s.drop (i + sep.length)).length ≤ g := by
            simp only [List.length_drop]
            omega
          dsimp only
          rw [ih g (s.drop (i + sep.length)) hdrop.1 hdrop.2]

/-- the one-step unfolding of jsSplit, matching the source loop. -/
theorem jsSplit_eq (sep s : JSStr) :
    jsSplit sep s =
      if sep = [] then [s]
      else
        match findSub sep s with
        | none => [s]
        | some i => s.take i :: jsSplit sep (s.drop (i + sep.length)) := by
  unfold jsSplit
  cases hl : s.length with
  | zero =>
    have : s = [] := List.length_eq_zero.mp hl
    subst this
    simp only [jsSplitF]
    split
    · rfl
    · rename_i hsep
      cases hfs : findSub sep [] with
      | none => rfl
      | some i =>
        have hb := findSub_some_bound sep [] i hsep hfs
        simp at hb
  | succ n =>
    simp only [jsSplitF]
    split
    · rfl
    · rename_i hsep
      cases hfs : findSub sep s with
      | none => rfl
      | some i =>
        have hb := findSub_some_bound sep s i hsep hfs
        have hplen : 0 < sep.length := List.length_pos.mpr hsep
        dsimp only
        rw [jsSplitF_irrel sep n (s.drop (i + sep.length)).length
          (s.drop (i + sep.length))
          (by simp only [List.length_drop]; omega) le_rfl]

theorem jsSplit_ne_nil (sep s : JSStr) : jsSplit sep s ≠ [] := by
  rw [jsSplit_eq]
  split
  · simp
  · cases hf : findSub sep s <;> simp

theorem marLoop_eq_jsJoin_jsSplit (orig repl : JSStr) (horig : orig ≠ []) :
    ∀ s : JSStr, marLoop orig repl s = jsJoin repl (jsSplit orig s) := by
  have main : ∀ n : Nat, ∀ s : JSStr, s.length ≤ n →
      marLoop orig repl s = jsJoin repl (jsSplit orig s) := by
    intro n
    induction n with
    | zero =>
      intro s hs
      rw [marLoop_eq, jsSplit_eq, if_neg horig, if_neg horig]
      cases hf : findSub orig s with
      | none => simp [jsJoin]
      | some i =>
        have hb := findSub_some_bound orig s i horig hf
        omega
    | succ n ih =>
      intro s hs
      rw [marLoop_eq, jsSplit_eq, if_neg horig, if_neg horig]
      cases hf : findSub orig s with
      | none => simp [jsJoin]
      | some i =>
        have hb := findSub_some_bound orig s i horig hf
        have hplen : 0 < orig.length := List.length_pos.mpr horig
        have hrec := ih (s.drop (i + orig.length))
          (by simp only [List.length_drop]; omega)
        simp only [hrec]
        cases hsplit : jsSplit orig (s.drop (i + orig.length)) with
        | nil => exact absurd hsplit (jsSplit_ne_nil _ _)
        | cons hd tl =>
          simp [jsJoin, List.append_assoc]
  intro s
  exact main s.length s le_rfl

/-- a property preserved by every step of a fold holds of the fold. -/
theorem foldl_preserve {σ α : Type _} (P : σ → Prop) (f : σ → α → σ)
    (hf : ∀ st a, P st → P (f st a)) :
    ∀ (l : List α) (st : σ), P st → P (l.foldl f st) := by
  intro l
  induction l with
  | nil => intro st h; exact h
  | cons a t ih => intro st h; exact ih (f st a) (hf st a h)

/-! ### The worker progress trace (claim C9) -/

theorem loopTrace_bounds (t e : Nat → Bool) :
    ∀ fuel d, fuel + d ≤ 10 → ∀ q ∈ BranchSearchWorker.loopTrace t e fuel d,
      1 / 10 ≤ q ∧ q ≤ 9 / 10 := by
  intro fuel
  induction fuel with
  | zero =>
    intro d _ q hq
    simp [BranchSearchWorker.loopTrace] at hq
  | succ fuel ih =>
    intro d hd q hq
    have hd0 : (0 : ℚ) ≤ (d : ℚ) := Nat.cast_nonneg d
    have hd9 : (d : ℚ) ≤ 9 := by exact_mod_cast (by omega : d ≤ 9)
    simp only [BranchSearchWorker.loopTrace] at hq
    split at hq
    · simp only [List.mem_singleton] at hq
      subst hq
      constructor <;> norm_num
    · rcases List.mem_cons.mp hq with h1 | h2
      · subst h1
        unfold BranchSearchWorker.searchProgress
        constructor
        · rw [div_le_div_iff (by norm_num) (by norm_num)]
          push_cast
          linarith
        · rw [div_le_div_iff (by norm_num) (by norm_num)]
          push_cast
          linarith
      · split at h2
        · simp only [List.mem_singleton] at h2
          subst h2
          constructor <;> norm_num
        · exact ih (d + 1) (by omega) q h2

theorem searchProgress_le_nine_tenths (d : Nat) (hd : d ≤ 9) :
    BranchSearchWorker.searchProgress d ≤ 9 / 10 := by
  have hd9 : (d : ℚ) ≤ 9 := by exact_mod_cast hd
  unfold BranchSearchWorker.searchProgress
  rw [div_le_div_iff (by norm_num) (by norm_num)]
  push_cast
  linarith

theorem searchProgress_mono (d : Nat) :
    BranchSearchWorker.searchProgress d ≤ BranchSearchWorker.searchProgress (d + 1) := by
  unfold BranchSearchWorker.searchProgress
  rw [div_le_div_right (by norm_num)]
  exact_mod_cast (by omega : 10 + 8 * d ≤ 10 + 8 * (d + 1))

theorem loopTrace_chain (t e : Nat → Bool) :
    ∀ fuel d, fuel + d ≤ 10 →
      List.Chain' (· ≤ ·) (BranchSearchWorker.loopTrace t e fuel d) ∧
      ∀ q ∈ (BranchSearchWorker.loopTrace t e fuel d).head?,
        BranchSearchWorker.searchProgress d ≤ q := by
  intro fuel
  induction fuel with
  | zero =>
    intro d _
    constructor
    · simp [BranchSearchWorker.loopTrace]
    · intro q hq
      simp [BranchSearchWorker.loopTrace] at hq
  | succ fuel ih =>
    intro d hd
    have hsp9 := searchProgress_le_nine_tenths d (by omega)
    simp only [BranchSearchWorker.loopTrace]
    split
    · constructor
      · exact List.chain'_singleton _
      · intro q hq
        simp only [List.head?_cons, Option.mem_def, Option.some.injEq] at hq
        subst hq
        exact hsp9
    · split
      · constructor
        · exact List.chain'_cons.mpr ⟨hsp9, List.chain'_singleton _⟩
        · intro q hq
          simp only [List.head?_cons, Option.mem_def, Option.some.injEq] at hq
          subst hq
          exact le_refl _
      · obtain ⟨ihc, ihh⟩ := ih (d + 1) (by omega)
        constructor
        · exact List.chain'_cons'.mpr
            ⟨fun y hy => le_trans (searchProgress_mono d) (ihh y hy), ihc⟩
        · intro q hq
          simp only [List.head?_cons, Option.mem_def, Option.some.injEq] at hq
          subst hq
          exact le_refl _

/-- C9: for every behaviour of the wall-clock time limit and of the
candidate supply (the two environment-dependent exits of the search loop),
the sequence of progress values emitted by one execution of the background
worker is monotone non-decreasing, and every emitted value lies in the
interval [0, 1]. -/
theorem C9_worker_progress_monotone (timeoutAt emptyAt : Nat → Bool) :
    List.Chain' (· ≤ ·) (BranchSearchWorker.workerProgressTrace timeoutAt emptyAt) ∧
    ∀ q ∈ BranchSearchWorker.workerProgressTrace timeoutAt emptyAt,
      0 ≤ q ∧ q ≤ 1 := by
  obtain ⟨hc, hh⟩ := loopTrace_chain timeoutAt emptyAt 10 0 (by omega)
  have hb := loopTrace_bounds timeoutAt emptyAt 10 0 (by omega)
  unfold BranchSearchWorker.workerProgressTrace
  constructor
  · show List.Chain' (· ≤ ·)
      ((1 : ℚ) / 100 :: 2 / 100 :: 5 / 100 ::
        (BranchSearchWorker.loopTrace timeoutAt emptyAt 10 0 ++ [98 / 100]))
    refine List.chain'_cons.mpr ⟨by norm_num, ?_⟩
    refine List.chain'_cons.mpr ⟨by norm_num, ?_⟩
    refine List.chain'_cons'.mpr ⟨?_, ?_⟩
    · intro y hy
      cases hl : BranchSearchWorker.loopTrace timeoutAt emptyAt 10 0 with
      | nil =>
        rw [hl] at hy
        simp only [List.nil_append, List.head?_cons, Option.mem_def,
          Option.some.injEq] at hy
        subst hy
        norm_num
      | cons c cs =>
        rw [hl] at hy
        simp only [List.cons_append, List.head?_cons, Option.mem_def,
          Option.some.injEq] at hy
        subst hy
        have hcb : 1 / 10 ≤ c ∧ c ≤ 9 / 10 := hb c (by rw [hl]; exact List.mem_cons_self c cs)
        linarith [hcb.1]
    · rw [List.chain'_append]
      refine ⟨hc, List.chain'_singleton _, ?_⟩
      intro x hx y hy
      simp only [List.head?_cons, Option.mem_def, Option.some.injEq] at hy
      subst hy
      have hxb := hb x (List.mem_of_mem_getLast? hx)
      linarith [hxb.2]
  · intro q hq
    simp only [List.append_assoc, List.mem_append, List.mem_cons,
      List.mem_singleton, List.not_mem_nil, or_false] at hq
    rcases hq with (h | h | h) | h | h
    · subst h; constructor <;> norm_num
    · subst h; constructor <;> norm_num
    · subst h; constructor <;> norm_num
    · have := hb q h
      constructor <;> linarith [this.1, this.2]
    · subst h
      constructor <;> norm_num

/-! ### The crusher rewrite step (claim C10) -/

/-- C10: for every text s, nonempty pattern p and token c, the crusher
rewrite step — matchAndReplaceAll with empty prefix and suffix c ++ p, as
invoked by Crusher.compressWithPatterns — produces exactly the split/join
form s.split(p).join(c) ++ c ++ p: every non-overlapping occurrence of p in
s, left to right, replaced by c, with the token and the pattern appended;
the loop implementation coincides with the split/join reference
definition. -/
theorem C10_rewrite_is_split_join (s p c : JSStr) (hp : p ≠ []) :
    StringHelper.matchAndReplaceAll s p c [] (c ++ p) =
      jsJoin c (jsSplit p s) ++ (c ++ p) := by
  unfold StringHelper.matchAndReplaceAll
  rw [marLoop_eq_jsJoin_jsSplit p c hp s]
  simp

theorem C10_rewrite_is_split_join_witness :
    ([1, 2] : JSStr) ≠ [] ∧
      StringHelper.matchAndReplaceAll [1, 2, 1, 2] [1, 2] [9] [] ([9] ++ [1, 2]) =
        jsJoin [9] (jsSplit [1, 2] [1, 2, 1, 2]) ++ ([9] ++ [1, 2]) :=
  ⟨by decide, C10_rewrite_is_split_join [1, 2, 1, 2] [1, 2] [9] (by decide)⟩

/-! ### The digit guard of the replacer variant (claim C6) -/

/-- C6: on an input containing a decimal digit the digit-replacer variant
fails immediately: the result is a single zero-length error stage whose
message names the reserved token characters 0-9, and no compression is
performed (the outcome does not depend on the compression function at
all). -/
theorem C6_digit_guard (compress compress2 : JSStr → PackerResult) (input : JSStr)
    (h : Replacer.containsDigit input = true) :
    Replacer.runPacker compress input =
      [{ length := 0, output := [],
         report := [ReportItem.errorMessage
           (strU "Error: " ++ Replacer.digitErrorMessage)] }] ∧
    Replacer.runPacker compress input = Replacer.runPacker compress2 input ∧
    (findSub (strU "0-9") Replacer.digitErrorMessage).isSome = true := by
  refine ⟨?_, ?_, ?_⟩
  · simp [Replacer.runPacker, h]
  · simp [Replacer.runPacker, h]
  · decide

theorem C6_digit_guard_witness :
    Replacer.containsDigit (strU "0 1 2 3 4") = true ∧
      Replacer.runPacker (fun _ => { length := 0, output := [], report := [] })
          (strU "0 1 2 3 4") =
        [{ length := 0, output := [],
           report := [ReportItem.errorMessage
             (strU "Error: " ++ Replacer.digitErrorMessage)] }] :=
  ⟨by decide,
    (C6_digit_guard (fun _ => { length := 0, output := [], report := [] })
      (fun _ => { length := 7, output := [5], report := [] })
      (strU "0 1 2 3 4") (by decide)).1⟩

/-- variant of foldl_preserve whose step hypothesis may use membership of
the element in the folded list. -/
theorem foldl_preserve_mem {σ α : Type _} (P : σ → Prop) :
    ∀ (l : List α) (f : σ → α → σ),
      (∀ st a, a ∈ l → P st → P (f st a)) →
      ∀ st, P st → P (l.foldl f st) := by
  intro l
  induction l with
  | nil => intro f _ st h; exact h
  | cons a t ih =>
    intro f hf st h
    exact ih f (fun st2 b hb h2 => hf st2 b (List.mem_cons_of_mem a hb) h2)
      (f st a) (hf st a (List.mem_cons_self a t) h)

/-! ### Soundness of the pattern enumerations (claims C2 and C3) -/

theorem findCell_sound (s : JSStr) (len : Nat) (st : FindState) (i : Nat)
    (hst : ∀ p ∈ st.patterns,
      p.gain = (p.copies : Int) * p.len - p.copies - p.len - 2 ∧
      p.copies = countOccurrencesStep1 p.string s ∧
      p.len = getEscapedByteLength p.string) :
    ∀ p ∈ (findCell s len st i).patterns,
      p.gain = (p.copies : Int) * p.len - p.copies - p.len - 2 ∧
      p.copies = countOccurrencesStep1 p.string s ∧
      p.len = getEscapedByteLength p.string := by
  intro p hp
  unfold findCell at hp
  dsimp only at hp
  split at hp
  · split at hp
    · exact hst p hp
    · split at hp
      · simp only [List.mem_append, List.mem_singleton] at hp
        rcases hp with h | h
        · exact hst p h
        · subst h
          exact ⟨rfl, rfl, rfl⟩
      · exact hst p hp
  · exact hst p hp

theorem findAllWithCap_sound (cap : Nat) (s : JSStr) :
    ∀ p ∈ findAllWithCap cap s,
      p.gain = (p.copies : Int) * p.len - p.copies - p.len - 2 ∧
      p.copies = countOccurrencesStep1 p.string s ∧
      p.len = getEscapedByteLength p.string := by
  intro p hp
  unfold findAllWithCap at hp
  refine foldl_preserve
    (fun st : FindState => ∀ q ∈ st.patterns,
      q.gain = (q.copies : Int) * q.len - q.copies - q.len - 2 ∧
      q.copies = countOccurrencesStep1 q.string s ∧
      q.len = getEscapedByteLength q.string)
    (fun st len => (List.range (s.length - len + 1)).foldl (findCell s len) st)
    ?_ (lengthsDesc cap) { patterns := [], matchesKeys := [] } ?_ p hp
  · intro st2 len2 h2
    exact foldl_preserve _ (findCell s len2)
      (fun st3 i h3 => findCell_sound s len2 st3 i h3) _ st2 h2
  · intro q hq
    simp at hq

theorem updatePatternStats_sound (ps : List Match) (t : JSStr) :
    ∀ p ∈ PatternAnalyzer.updatePatternStats ps t,
      p.gain = (p.copies : Int) * p.len - p.copies - p.len - 2 ∧
      p.copies = countNonOverlapping p.string t := by
  intro p hp
  unfold PatternAnalyzer.updatePatternStats at hp
  rw [List.mem_filter] at hp
  obtain ⟨hmem, hcond⟩ := hp
  rw [List.mem_map] at hmem
  obtain ⟨q, _, rfl⟩ := hmem
  simp only [decide_eq_true_eq] at hcond
  have hcnt : max (countNonOverlapping q.string t) 1 = countNonOverlapping q.string t := by
    have h2 : 2 ≤ max (countNonOverlapping q.string t) 1 := hcond.1
    omega
  constructor
  · show ((countNonOverlapping q.string t : Int) * q.len -
        countNonOverlapping q.string t - q.len - 2 : Int) =
      ((max (countNonOverlapping q.string t) 1 : Nat) : Int) * q.len -
        (max (countNonOverlapping q.string t) 1 : Nat) - q.len - 2
    rw [hcnt]
  · show max (countNonOverlapping q.string t) 1 = countNonOverlapping q.string t
    exact hcnt

theorem findBestMatchBalanced_sound (entropyFn : JSStr → Rat)
    (opts : PackerOptions) (m : List (JSStr × Nat)) (total : Nat)
    (b : Crusher.BestMatchSel)
    (h : (Crusher.findBestMatchBalanced entropyFn opts m total).1 = some b) :
    b.gain = (b.copies : Int) * (getEscapedByteLength b.pattern : Int) -
      b.copies - getEscapedByteLength b.pattern - 2 ∧
    (b.pattern, b.copies) ∈ m := by
  have hinv := foldl_preserve_mem
    (fun acc : List (JSStr × Nat) × JSStr × Rat × Int × Nat =>
      acc.2.1 = [] ∨
        (acc.2.2.2.1 = (acc.2.2.2.2 : Int) * (getEscapedByteLength acc.2.1 : Int) -
            acc.2.2.2.2 - getEscapedByteLength acc.2.1 - 2 ∧
          (acc.2.1, acc.2.2.2.2) ∈ m))
    m (Crusher.findBestCell entropyFn opts total) ?_ ([], ([], 0, 0, 0))
    (Or.inl rfl)
  · unfold Crusher.findBestMatchBalanced at h
    dsimp only at h
    split at h
    · exact absurd h (by simp)
    · rename_i hne
      injection h with h2
      subst h2
      rcases hinv with hnil | ⟨hg, hm⟩
      · exact absurd hnil hne
      · exact ⟨hg, hm⟩
  · intro st e he hst
    unfold Crusher.findBestCell
    dsimp only
    split
    · split
      · exact hst
      · exact hst
    · split
      · right
        refine ⟨rfl, ?_⟩
        simpa using he
      · exact hst

/-- C2: in the greedy and beam-search stages, every recorded gain obeys the
formula gain = copies * len - copies - len - 2, where copies is the current
occurrence count of the pattern and len its escaped byte length: this holds
for every pattern produced by the RegPack2 and PatternAnalyzer enumerations
(copies being the position-stepping occurrence count at enumeration time and
len the escaped byte length of the pattern string), for every pattern kept
by the updatePatternStats recount (copies being the non-overlapping count
against the current text), and for the selection of the Crusher balanced
heuristic (len being the escaped byte length of the selected pattern, copies
its recorded count). -/
theorem C2_gain_formula :
    (∀ s : JSStr, ∀ p ∈ RegPack2.findAllPotentialPatterns s,
        p.gain = (p.copies : Int) * p.len - p.copies - p.len - 2 ∧
        p.copies = countOccurrencesStep1 p.string s ∧
        p.len = getEscapedByteLength p.string) ∧
    (∀ s : JSStr, ∀ p ∈ PatternAnalyzer.findAllPotentialPatterns s,
        p.gain = (p.copies : Int) * p.len - p.copies - p.len - 2 ∧
        p.copies = countOccurrencesStep1 p.string s ∧
        p.len = getEscapedByteLength p.string) ∧
    (∀ (ps : List Match) (t : JSStr), ∀ p ∈ PatternAnalyzer.updatePatternStats ps t,
        p.gain = (p.copies : Int) * p.len - p.copies - p.len - 2 ∧
        p.copies = countNonOverlapping p.string t) ∧
    (∀ (entropyFn : JSStr → Rat) (opts : PackerOptions) (m : List (JSStr × Nat))
        (total : Nat) (b : Crusher.BestMatchSel),
        (Crusher.findBestMatchBalanced entropyFn opts m total).1 = some b →
        b.gain = (b.copies : Int) * (getEscapedByteLength b.pattern : Int) -
          b.copies - getEscapedByteLength b.pattern - 2 ∧
        (b.pattern, b.copies) ∈ m) :=
  ⟨fun s => findAllWithCap_sound (min 100 (s.length / 2)) s,
   fun s => findAllWithCap_sound (min (s.length / 2) 500) s,
   updatePatternStats_sound,
   findBestMatchBalanced_sound⟩

theorem C2_gain_formula_witness :
    ({ token := [], string := [97, 98], originalString := [97, 98], depends := [],
       usedBy := [], gain := -2, copies := 2, len := 2, score := -2,
       cleared := false, newOrder := 9999 : Match } ∈
        RegPack2.findAllPotentialPatterns [97, 98, 97, 98] ∧
      (-2 : Int) = ((2 : Nat) : Int) * (2 : Nat) - (2 : Nat) - (2 : Nat) - 2 ∧
      (2 : Nat) = countOccurrencesStep1 [97, 98] [97, 98, 97, 98] ∧
      (2 : Nat) = getEscapedByteLength [97, 98]) ∧
    ((Crusher.findBestMatchBalanced (fun _ => 0) {} [([97, 98, 99], 3)] 9).1 =
        some { pattern := [97, 98, 99], score := 8, gain := 1, copies := 3 } ∧
      (1 : Int) = ((3 : Nat) : Int) * (getEscapedByteLength [97, 98, 99] : Int) -
        (3 : Nat) - getEscapedByteLength [97, 98, 99] - 2 ∧
      (([97, 98, 99] : JSStr), (3 : Nat)) ∈ [(([97, 98, 99] : JSStr), (3 : Nat))]) :=
  ⟨⟨by decide, (C2_gain_formula.1 [97, 98, 97, 98]
      { token := [], string := [97, 98], originalString := [97, 98], depends := [],
        usedBy := [], gain := -2, copies := 2, len := 2, score := -2,
        cleared := false, newOrder := 9999 } (by decide))⟩,
   ⟨by decide, (C2_gain_formula.2.2.2 (fun _ => 0) {} [([97, 98, 99], 3)] 9
      { pattern := [97, 98, 99], score := 8, gain := 1, copies := 3 } (by decide))⟩⟩

theorem findCell_patterns_mono (s : JSStr) (len : Nat) (st : FindState) (i : Nat) :
    ∀ p ∈ st.patterns, p ∈ (findCell s len st i).patterns := by
  intro p hp
  unfold findCell
  dsimp only
  split
  · split
    · exact hp
    · split
      · exact List.mem_append_left _ hp
      · exact hp
  · exact hp

theorem foldl_findCell_mono (s : JSStr) (len : Nat) :
    ∀ (l : List Nat) (st : FindState), ∀ p ∈ st.patterns,
      p ∈ (l.foldl (findCell s len) st).patterns := by
  intro l
  induction l with
  | nil => intro st p hp; exact hp
  | cons a t ih => intro st p hp; exact ih _ p (findCell_patterns_mono s len st a p hp)

theorem findAll_outer_mono (s : JSStr) :
    ∀ (ls : List Nat) (st : FindState), ∀ p ∈ st.patterns,
      p ∈ (ls.foldl
        (fun st2 length => (List.range (s.length - length + 1)).foldl
          (findCell s length) st2) st).patterns := by
  intro ls
  induction ls with
  | nil => intro st p hp; exact hp
  | cons a t ih => intro st p hp; exact ih _ p (foldl_findCell_mono s a _ st p hp)

theorem mem_lengthsDesc (cap ℓ : Nat) (h : ℓ ∈ lengthsDesc cap) :
    2 ≤ ℓ ∧ ℓ ≤ cap := by
  unfold lengthsDesc at h
  rw [List.mem_reverse, List.mem_range'_1] at h
  omega

theorem findCell_length_bound (s : JSStr) (cap ℓ : Nat) (st : FindState) (i : Nat)
    (hℓ2 : 2 ≤ ℓ) (hℓc : ℓ ≤ cap) (hi : i + ℓ ≤ s.length)
    (hst : ∀ p ∈ st.patterns, 2 ≤ p.string.length ∧ p.string.length ≤ cap) :
    ∀ p ∈ (findCell s ℓ st i).patterns,
      2 ≤ p.string.length ∧ p.string.length ≤ cap := by
  intro p hp
  unfold findCell at hp
  dsimp only at hp
  split at hp
  · split at hp
    · exact hst p hp
    · split at hp
      · simp only [List.mem_append, List.mem_singleton] at hp
        rcases hp with h | h
        · exact hst p h
        · subst h
          show 2 ≤ (jsSubstr s i ℓ).length ∧ (jsSubstr s i ℓ).length ≤ cap
          simp only [jsSubstr, List.length_take, List.length_drop]
          omega
      · exact hst p hp
  · exact hst p hp

theorem findAllWithCap_length_bounds (cap : Nat) (s : JSStr) (hcap : cap ≤ s.length) :
    ∀ p ∈ findAllWithCap cap s,
      2 ≤ p.string.length ∧ p.string.length ≤ cap := by
  intro p hp
  unfold findAllWithCap at hp
  refine foldl_preserve_mem
    (fun st : FindState => ∀ q ∈ st.patterns,
      2 ≤ q.string.length ∧ q.string.length ≤ cap)
    (lengthsDesc cap)
    (fun st length => (List.range (s.length - length + 1)).foldl (findCell s length) st)
    ?_ { patterns := [], matchesKeys := [] } ?_ p hp
  · intro st2 ℓ hℓ h2
    obtain ⟨hℓ2, hℓc⟩ := mem_lengthsDesc cap ℓ hℓ
    refine foldl_preserve_mem
      (fun st : FindState => ∀ q ∈ st.patterns,
        2 ≤ q.string.length ∧ q.string.length ≤ cap)
      (List.range (s.length - ℓ + 1)) (findCell s ℓ) ?_ st2 h2
    intro st3 i hi h3
    rw [List.mem_range] at hi
    exact findCell_length_bound s cap ℓ st3 i hℓ2 hℓc (by omega) h3
  · intro q hq
    simp at hq

theorem findAllWithCap_head_mem (cap : Nat) (s : JSStr)
    (h1 : lengthsDesc cap = cap :: lengthsDesc (cap - 1))
    (h2 : List.range (s.length - cap + 1) = 0 :: List.range' 1 (s.length - cap)) :
    ∀ p ∈ (findCell s cap { patterns := [], matchesKeys := [] } 0).patterns,
      p ∈ findAllWithCap cap s := by
  intro p hp
  unfold findAllWithCap
  simp only [h1, List.foldl_cons]
  apply findAll_outer_mono
  simp only [h2, List.foldl_cons]
  apply foldl_findCell_mono
  exact hp

theorem patternAnalyzer_eq_cap (s : JSStr) (cap : Nat)
    (h : min (s.length / 2) 500 = cap) :
    PatternAnalyzer.findAllPotentialPatterns s = findAllWithCap cap s := by
  unfold PatternAnalyzer.findAllPotentialPatterns
  rw [h]

/-- C3 counterexample: there is a text on which the pattern analyser's
enumeration produces a pattern strictly longer than the claimed cap
min(100, floor(|text|/2)): a 101-unit block repeated twice (202 code units,
claimed cap 100) yields a pattern of 101 code units, because the
PatternAnalyzer cap is min(floor(|text|/2), 500) = 101, not
min(100, floor(|text|/2)). -/
theorem C3_counterexample :
    ∃ s : JSStr, ∃ p ∈ PatternAnalyzer.findAllPotentialPatterns s,
      min 100 (s.length / 2) < p.string.length := by
  have key : ∃ p ∈ (findCell
      ((List.range 101).map (fun i => 200 + i) ++ (List.range 101).map (fun i => 200 + i))
      101 { patterns := [], matchesKeys := [] } 0).patterns,
      100 < p.string.length := by decide
  obtain ⟨p, hp, hlen⟩ := key
  refine ⟨(List.range 101).map (fun i => 200 + i) ++
    (List.range 101).map (fun i => 200 + i), p, ?_, ?_⟩
  · rw [patternAnalyzer_eq_cap _ 101 (by decide)]
    exact findAllWithCap_head_mem 101 _ (by decide) (by decide) p hp
  · have hm : min 100 ((((List.range 101).map (fun i => 200 + i) ++
        (List.range 101).map (fun i => 200 + i) : JSStr)).length / 2) = 100 := by
      decide
    rw [hm]
    exact hlen

/-- C3 amended: the RegPack2 enumeration caps pattern lengths at
min(100, floor(|s|/2)) as the claim states, but the PatternAnalyzer
enumeration caps them at min(floor(|s|/2), 500); in both, every enumerated
pattern string has length at least 2 and at most the respective cap. -/
theorem C3_amended :
    (∀ s : JSStr, ∀ p ∈ RegPack2.findAllPotentialPatterns s,
        2 ≤ p.string.length ∧ p.string.length ≤ min 100 (s.length / 2)) ∧
    (∀ s : JSStr, ∀ p ∈ PatternAnalyzer.findAllPotentialPatterns s,
        2 ≤ p.string.length ∧ p.string.length ≤ min (s.length / 2) 500) := by
  constructor
  · intro s p hp
    exact findAllWithCap_length_bounds (min 100 (s.length / 2)) s (by omega) p hp
  · intro s p hp
    exact findAllWithCap_length_bounds (min (s.length / 2) 500) s (by omega) p hp

theorem C3_amended_witness :
    ({ token := [], string := [97, 98], originalString := [97, 98], depends := [],
       usedBy := [], gain := -2, copies := 2, len := 2, score := -2,
       cleared := false, newOrder := 9999 : Match } ∈
        RegPack2.findAllPotentialPatterns [97, 98, 97, 98] ∧
      2 ≤ ([97, 98] : JSStr).length ∧
      ([97, 98] : JSStr).length ≤ min 100 (([97, 98, 97, 98] : JSStr).length / 2)) ∧
    ({ token := [], string := [97, 98], originalString := [97, 98], depends := [],
       usedBy := [], gain := -2, copies := 2, len := 2, score := -2,
       cleared := false, newOrder := 9999 : Match } ∈
        PatternAnalyzer.findAllPotentialPatterns [97, 98, 97, 98] ∧
      2 ≤ ([97, 98] : JSStr).length ∧
      ([97, 98] : JSStr).length ≤ min (([97, 98, 97, 98] : JSStr).length / 2) 500) :=
  ⟨⟨by decide, C3_amended.1 [97, 98, 97, 98]
      { token := [], string := [97, 98], originalString := [97, 98], depends := [],
        usedBy := [], gain := -2, copies := 2, len := 2, score := -2,
        cleared := false, newOrder := 9999 } (by decide)⟩,
   ⟨by decide, C3_amended.2 [97, 98, 97, 98]
      { token := [], string := [97, 98], originalString := [97, 98], depends := [],
        usedBy := [], gain := -2, copies := 2, len := 2, score := -2,
        cleared := false, newOrder := 9999 } (by decide)⟩⟩

/-! ### The empty token-range failure of the allocators (claim C5) -/

theorem bindingLoop_nil_tokens_report (ms0 : List Match) (contents : JSStr) :
    (bindingLoop [] ms0 contents).report = [] := by
  unfold bindingLoop
  refine foldl_preserve (fun st : BindLoopState => st.report = []) _ ?_ _ _ rfl
  intro st _ h
  dsimp only
  split
  · unfold bindingStep
    rw [if_pos (by simp)]
    exact h
  · exact h

theorem crusher_optimize_noTokens (opts : PackerOptions) (contents : JSStr)
    (ms0 : List Match) (h : buildTokenRanges contents = []) :
    Crusher.optimizeAndPackToRegexp opts contents ms0 =
      Except.error (strU "No tokens available") := by
  simp only [Crusher.optimizeAndPackToRegexp, h]
  rfl

/-- C5 amended: when the token-range list of the input is empty (no usable
byte is absent from the input), the RegPack2 allocator stage does return
length -1 with No tokens available in its report and an empty output; the
Crusher allocator however throws, and its caller surfaces two zero-length
error results whose report carries the error message — not a result of
length -1, and not the uncompressed input. -/
theorem C5_no_free_tokens (contents : JSStr) (ms0 : List Match)
    (entropyFn : JSStr → Rat) (opts : PackerOptions)
    (h : buildTokenRanges contents = []) :
    (RegPack2.packToRegexpCharClass contents ms0).length = -1 ∧
    (RegPack2.packToRegexpCharClass contents ms0).output = [] ∧
    ReportItem.noTokensAvailable ∈ (RegPack2.packToRegexpCharClass contents ms0).report ∧
    Crusher.runPacker entropyFn opts contents =
      [{ length := 0, output := [],
         report := [ReportItem.errorMessage (strU "Error: No tokens available")] },
       { length := 0, output := [],
         report := [ReportItem.errorMessage (strU "Error: No tokens available")] }] := by
  have hreg : RegPack2.packToRegexpCharClass contents ms0 =
      { length := -1, output := [],
        report := (bindingLoop [] (buildDependencyGraph ms0) contents).report ++
          [ReportItem.noTokensAvailable, ReportItem.finalCheck false] } := by
    simp only [RegPack2.packToRegexpCharClass, h]
    rfl
  refine ⟨?_, ?_, ?_, ?_⟩
  · rw [hreg]
  · rw [hreg]
  · rw [hreg]
    rw [bindingLoop_nil_tokens_report]
    simp
  · simp only [Crusher.runPacker]
    rw [crusher_optimize_noTokens opts contents _ h]
    rfl

theorem C5_no_free_tokens_witness :
    buildTokenRanges ((List.range' 1 126).filter (fun i => decide (i ≠ 96))) = [] ∧
    (RegPack2.packToRegexpCharClass
      ((List.range' 1 126).filter (fun i => decide (i ≠ 96))) []).length = -1 ∧
    Crusher.runPacker (fun _ => 0) {}
        ((List.range' 1 126).filter (fun i => decide (i ≠ 96))) =
      [{ length := 0, output := [],
         report := [ReportItem.errorMessage (strU "Error: No tokens available")] },
       { length := 0, output := [],
         report := [ReportItem.errorMessage (strU "Error: No tokens available")] }] :=
  ⟨by decide,
   (C5_no_free_tokens ((List.range' 1 126).filter (fun i => decide (i ≠ 96))) []
     (fun _ => 0) {} (by decide)).1,
   (C5_no_free_tokens ((List.range' 1 126).filter (fun i => decide (i ≠ 96))) []
     (fun _ => 0) {} (by decide)).2.2.2⟩

/-- C5 counterexample: on the input holding every usable byte, the Crusher
allocator stage does not return length -1 as claimed; the caller surfaces
two error results of length 0 whose output is empty rather than the
uncompressed input. -/
theorem C5_counterexample :
    Crusher.runPacker (fun _ => 0) {}
        ((List.range' 1 126).filter (fun i => decide (i ≠ 96))) =
      [{ length := 0, output := [],
         report := [ReportItem.errorMessage (strU "Error: No tokens available")] },
       { length := 0, output := [],
         report := [ReportItem.errorMessage (strU "Error: No tokens available")] }] ∧
    ((0 : Int) = -1 → False) ∧
    (([] : JSStr) = (List.range' 1 126).filter (fun i => decide (i ≠ 96)) → False) := by
  refine ⟨by decide, by decide, by decide⟩

/-! ### The binding order of the token allocator (claim C4) -/

theorem findSub_cons_eq (pat : JSStr) (a : Nat) (t : JSStr) :
    findSub pat (a :: t) =
      if strPrefix pat (a :: t) = true then some 0
      else (findSub pat t).map (· + 1) := rfl

theorem removeTok_cons (d a : Nat) (t : JSStr) :
    jsJoin [] (jsSplit [d] (a :: t)) =
      (if a = d then [] else [a]) ++ jsJoin [] (jsSplit [d] t) := by
  rw [jsSplit_eq]
  rw [if_neg (by simp : ¬([d] : JSStr) = [])]
  by_cases had : a = d
  · subst had
    have hpre : strPrefix [a] (a :: t) = true := by simp [strPrefix]
    rw [findSub_cons_eq, hpre, if_pos rfl, if_pos rfl]
    simp only [List.take_zero, List.length_cons, List.length_nil, zero_add,
      List.drop_succ_cons, List.drop_zero, List.nil_append]
    cases hsp : jsSplit [a] t with
    | nil => exact absurd hsp (jsSplit_ne_nil _ _)
    | cons s0 rest =>
      cases rest with
      | nil => simp [jsJoin]
      | cons s1 r2 => simp [jsJoin]
  · have hpre : strPrefix [d] (a :: t) = false := by
      simp [strPrefix]
      omega
    rw [findSub_cons_eq, hpre, if_neg (by simp), if_neg had]
    cases hft : findSub [d] t with
    | none =>
      simp only [Option.map_none']
      conv_rhs => rw [jsSplit_eq, if_neg (by simp : ¬([d] : JSStr) = []), hft]
      simp [jsJoin]
    | some j =>
      simp only [Option.map_some']
      have h1 : (a :: t).take (j + 1) = a :: t.take j := by simp
      have h2 : (a :: t).drop (j + 1 + ([d] : JSStr).length) =
          t.drop (j + ([d] : JSStr).length) := by
        simp only [List.length_cons, List.length_nil, zero_add]
        rw [show j + 1 + 1 = (j + 1) + 1 by rfl, List.drop_succ_cons]
      rw [h1, h2]
      conv_rhs => rw [jsSplit_eq, if_neg (by simp : ¬([d] : JSStr) = []), hft]
      simp only [List.length_cons, List.length_nil, zero_add]
      cases hsp : jsSplit [d] (t.drop (j + 1)) with
      | nil => exact absurd hsp (jsSplit_ne_nil _ _)
      | cons s0 rest => simp [jsJoin]

theorem removeTok_eq_filter (d : Nat) (l : JSStr) :
    jsJoin [] (jsSplit [d] l) = l.filter (fun c => decide (c ≠ d)) := by
  induction l with
  | nil =>
    rw [jsSplit_eq]
    rw [if_neg (by simp : ¬([d] : JSStr) = [])]
    rw [show findSub [d] ([] : JSStr) = none by
      unfold findSub
      simp [strPrefix]]
    rfl
  | cons a t ih =>
    rw [removeTok_cons, ih, List.filter_cons]
    by_cases had : a = d
    · subst had
      simp
    · simp [had]

theorem mem_removeTok (c d : Nat) (l : JSStr) :
    c ∈ jsJoin [] (jsSplit [d] l) ↔ c ∈ l ∧ c ≠ d := by
  rw [removeTok_eq_filter]
  simp [List.mem_filter]

theorem clearMatch_length (ms : List Match) (j : Nat) :
    (clearMatch ms j).length = ms.length := by
  unfold clearMatch
  cases hj : ms.get? j with
  | none => rfl
  | some mj =>
    dsimp only
    cases hj2 : (ms.map (fun x =>
        { x with usedBy := jsJoin [] (jsSplit mj.token x.usedBy) })).get? j with
    | none => simp
    | some m2 => simp

theorem clearMatch_get? (ms : List Match) (j : Nat) (mj : Match)
    (hj : ms.get? j = some mj) (k : Nat) :
    (clearMatch ms j).get? k = (ms.get? k).map (fun m =>
      { m with usedBy := jsJoin [] (jsSplit mj.token m.usedBy),
               cleared := if k = j then true else m.cleared }) := by
  unfold clearMatch
  rw [hj]
  dsimp only
  have hms2 : (ms.map (fun x =>
      { x with usedBy := jsJoin [] (jsSplit mj.token x.usedBy) })).get? j =
      some { mj with usedBy := jsJoin [] (jsSplit mj.token mj.usedBy) } := by
    rw [List.get?_map, hj]
    rfl
  rw [hms2]
  dsimp only
  rw [List.get?_set, List.get?_map]
  by_cases hjk : j = k
  · subst hjk
    rw [hj]
    simp
  · rw [if_neg hjk]
    cases hmk : ms.get? k with
    | none => rfl
    | some m =>
      simp only [Option.map_some']
      rw [if_neg (fun hh => hjk hh.symm)]

theorem scan_noclear (out : JSStr) (cost : Nat) (ms0 : List Match)
    (h : (findBestForToken out cost ms0).negativeCleared = false) :
    (findBestForToken out cost ms0).ms = ms0 ∧
    ∀ idx, (findBestForToken out cost ms0).matchIndex = some idx →
      ∃ m, ms0.get? idx = some m ∧ m.usedBy = [] ∧ m.cleared = false := by
  have key := foldl_preserve
    (fun st : ScanResult => st.negativeCleared = false →
      st.ms = ms0 ∧ ∀ idx, st.matchIndex = some idx →
        ∃ m, ms0.get? idx = some m ∧ m.usedBy = [] ∧ m.cleared = false)
    (fun st j =>
      match st.ms.get? j with
      | none => st
      | some mj =>
        if mj.usedBy = [] ∧ mj.cleared = false then
          let count := countOccurrencesStep1 mj.originalString out
          let gain : Int := count * ((mj.len : Int) - cost) - mj.len - 2 * cost
          let score := gain
          if 0 ≤ gain then
            if st.bestScore < score ∨ (score = st.bestScore ∧
                (st.bestGain < gain ∨ (gain = st.bestGain ∧ st.bestCount < count))) then
              { st with
                matchIndex := some j, bestScore := score, bestGain := gain,
                bestCount := count }
            else st
          else
            { st with ms := clearMatch st.ms j, negativeCleared := true }
        else st)
    ?_ (List.range ms0.length)
    { ms := ms0, matchIndex := none, bestScore := -999, bestGain := -1,
      bestCount := 0, negativeCleared := false } ?_
  · exact key h
  · intro st j hst
    dsimp only
    split
    · exact hst
    · rename_i mj hmj
      split
      · rename_i hcond
        split
        · split
          · intro hnc
            simp only at hnc
            obtain ⟨hms, hidx⟩ := hst hnc
            subst hms
            refine ⟨rfl, ?_⟩
            intro idx hi
            simp only [Option.some.injEq] at hi
            subst hi
            exact ⟨mj, hmj, hcond.1, hcond.2⟩
          · exact hst
        · intro hnc
          simp at hnc
      · exact hst
  · intro _
    exact ⟨rfl, fun idx hi => by simp at hi⟩

theorem scan_ms_preserve (PM : List Match → Prop)
    (hPM : ∀ ms j mj, ms.get? j = some mj → PM ms → PM (clearMatch ms j))
    (out : JSStr) (cost : Nat) (ms0 : List Match) (h : PM ms0) :
    PM (findBestForToken out cost ms0).ms := by
  unfold findBestForToken
  refine foldl_preserve (fun st : ScanResult => PM st.ms) _ ?_ _ _ h
  intro st j hst
  dsimp only
  split
  · exact hst
  · rename_i mj hmj
    split
    · split
      · split
        · exact hst
        · exact hst
      · exact hPM st.ms j mj hmj hst
    · exact hst

theorem msinv_clearMatch (ms0 : List Match) (tokf : Nat → Nat) (tc : Nat)
    (hdist : ∀ k l, k < ms0.length → l < ms0.length → k ≠ l → tokf k ≠ tokf l)
    (htok0 : ∀ k m, ms0.get? k = some m → m.token = [tokf k])
    (ms : List Match) (j : Nat) (mj : Match) (hj : ms.get? j = some mj)
    (hL : ms.length = ms0.length)
    (hP : ∀ k m, ms.get? k = some m → ∃ m0, ms0.get? k = some m0 ∧
      m.originalString = m0.originalString ∧ m.token = m0.token)
    (hI1 : ∀ a b ma mb, ms.get? a = some ma → ms.get? b = some mb → a ≠ b →
      (findSub mb.originalString ma.originalString).isSome = true →
      ma.cleared = false → tokf a ∈ mb.usedBy)
    (hI23 : ∀ k m, ms.get? k = some m → m.newOrder ≠ 9999 →
      m.cleared = true ∧ m.newOrder < tc)
    (hI4 : ∀ a b ma mb, ms.get? a = some ma → ms.get? b = some mb → a ≠ b →
      (findSub mb.originalString ma.originalString).isSome = true →
      mb.newOrder ≠ 9999 → ma.cleared = true)
    (hI5 : ∀ a b ma mb, ms.get? a = some ma → ms.get? b = some mb → a ≠ b →
      (findSub mb.originalString ma.originalString).isSome = true →
      ma.newOrder ≠ 9999 → mb.newOrder ≠ 9999 → ma.newOrder < mb.newOrder) :
    (clearMatch ms j).length = ms0.length ∧
    (∀ k m, (clearMatch ms j).get? k = some m → ∃ m0, ms0.get? k = some m0 ∧
      m.originalString = m0.originalString ∧ m.token = m0.token) ∧
    (∀ a b ma mb, (clearMatch ms j).get? a = some ma →
      (clearMatch ms j).get? b = some mb → a ≠ b →
      (findSub mb.originalString ma.originalString).isSome = true →
      ma.cleared = false → tokf a ∈ mb.usedBy) ∧
    (∀ k m, (clearMatch ms j).get? k = some m → m.newOrder ≠ 9999 →
      m.cleared = true ∧ m.newOrder < tc) ∧
    (∀ a b ma mb, (clearMatch ms j).get? a = some ma →
      (clearMatch ms j).get? b = some mb → a ≠ b →
      (findSub mb.originalString ma.originalString).isSome = true →
      mb.newOrder ≠ 9999 → ma.cleared = true) ∧
    (∀ a b ma mb, (clearMatch ms j).get? a = some ma →
      (clearMatch ms j).get? b = some mb → a ≠ b →
      (findSub mb.originalString ma.originalString).isSome = true →
      ma.newOrder ≠ 9999 → mb.newOrder ≠ 9999 → ma.newOrder < mb.newOrder) := by
  have hchar := clearMatch_get? ms j mj hj
  have htokj : mj.token = [tokf j] := by
    obtain ⟨m0, h0, _, ht⟩ := hP j mj hj
    rw [ht]
    exact htok0 j m0 h0
  have hjl : j < ms0.length := by
    have := (List.get?_eq_some.mp hj).1
    omega
  refine ⟨?_, ?_, ?_, ?_, ?_, ?_⟩
  · rw [clearMatch_length, hL]
  · intro k m hm
    rw [hchar k, Option.map_eq_some'] at hm
    obtain ⟨mo, hmo, rfl⟩ := hm
    obtain ⟨m0, h0, ho, ht⟩ := hP k mo hmo
    exact ⟨m0, h0, ho, ht⟩
  · intro a b ma mb hma hmb hab hsub hcl
    rw [hchar a, Option.map_eq_some'] at hma
    obtain ⟨ma0, hma0, rfl⟩ := hma
    rw [hchar b, Option.map_eq_some'] at hmb
    obtain ⟨mb0, hmb0, rfl⟩ := hmb
    have haj : a ≠ j ∧ ma0.cleared = false := by
      by_cases h : a = j
      · subst h
        simp at hcl
      · refine ⟨h, ?_⟩
        simpa [h] using hcl
    have hal : a < ms0.length := by
      have := (List.get?_eq_some.mp hma0).1
      omega
    have hmem := hI1 a b ma0 mb0 hma0 hmb0 hab hsub haj.2
    show tokf a ∈ jsJoin [] (jsSplit mj.token mb0.usedBy)
    rw [htokj, mem_removeTok]
    exact ⟨hmem, hdist a j hal hjl haj.1⟩
  · intro k m hm honat
    rw [hchar k, Option.map_eq_some'] at hm
    obtain ⟨mo, hmo, rfl⟩ := hm
    have h23 := hI23 k mo hmo honat
    constructor
    · show (if k = j then true else mo.cleared) = true
      by_cases h : k = j
      · simp [h]
      · simpa [h] using h23.1
    · exact h23.2
  · intro a b ma mb hma hmb hab hsub hbn
    rw [hchar a, Option.map_eq_some'] at hma
    obtain ⟨ma0, hma0, rfl⟩ := hma
    rw [hchar b, Option.map_eq_some'] at hmb
    obtain ⟨mb0, hmb0, rfl⟩ := hmb
    have := hI4 a b ma0 mb0 hma0 hmb0 hab hsub hbn
    show (if a = j then true else ma0.cleared) = true
    by_cases h : a = j
    · simp [h]
    · simpa [h] using this
  · intro a b ma mb hma hmb hab hsub han hbn
    rw [hchar a, Option.map_eq_some'] at hma
    obtain ⟨ma0, hma0, rfl⟩ := hma
    rw [hchar b, Option.map_eq_some'] at hmb
    obtain ⟨mb0, hmb0, rfl⟩ := hmb
    exact hI5 a b ma0 mb0 hma0 hmb0 hab hsub han hbn

theorem bindingLoop_invariant (availableTokens : List Nat) (ms0 : List Match)
    (contents : JSStr) (tokf : Nat → Nat)
    (hdist : ∀ k l, k < ms0.length → l < ms0.length → k ≠ l → tokf k ≠ tokf l)
    (htok0 : ∀ k m, ms0.get? k = some m → m.token = [tokf k])
    (hdep : ∀ a b ma mb, ms0.get? a = some ma → ms0.get? b = some mb → a ≠ b →
      (findSub mb.originalString ma.originalString).isSome = true →
      tokf a ∈ mb.usedBy)
    (hinit : ∀ k m, ms0.get? k = some m → m.newOrder = 9999)
    (havail : availableTokens.length ≤ 9999) :
    (fun st : BindLoopState =>
      st.ms.length = ms0.length ∧
      st.tokenCount ≤ availableTokens.length ∧
      (∀ k m, st.ms.get? k = some m → ∃ m0, ms0.get? k = some m0 ∧
        m.originalString = m0.originalString ∧ m.token = m0.token) ∧
      (∀ a b ma mb, st.ms.get? a = some ma → st.ms.get? b = some mb → a ≠ b →
        (findSub mb.originalString ma.originalString).isSome = true →
        ma.cleared = false → tokf a ∈ mb.usedBy) ∧
      (∀ k m, st.ms.get? k = some m → m.newOrder ≠ 9999 →
        m.cleared = true ∧ m.newOrder < st.tokenCount) ∧
      (∀ a b ma mb, st.ms.get? a = some ma → st.ms.get? b = some mb → a ≠ b →
        (findSub mb.originalString ma.originalString).isSome = true →
        mb.newOrder ≠ 9999 → ma.cleared = true) ∧
      (∀ a b ma mb, st.ms.get? a = some ma → st.ms.get? b = some mb → a ≠ b →
        (findSub mb.originalString ma.originalString).isSome = true →
        ma.newOrder ≠ 9999 → mb.newOrder ≠ 9999 → ma.newOrder < mb.newOrder))
      (bindingLoop availableTokens ms0 contents) := by
  unfold bindingLoop
  refine foldl_preserve (fun st : BindLoopState =>
      st.ms.length = ms0.length ∧
      st.tokenCount ≤ availableTokens.length ∧
      (∀ k m, st.ms.get? k = some m → ∃ m0, ms0.get? k = some m0 ∧
        m.originalString = m0.originalString ∧ m.token = m0.token) ∧
      (∀ a b ma mb, st.ms.get? a = some ma → st.ms.get? b = some mb → a ≠ b →
        (findSub mb.originalString ma.originalString).isSome = true →
        ma.cleared = false → tokf a ∈ mb.usedBy) ∧
      (∀ k m, st.ms.get? k = some m → m.newOrder ≠ 9999 →
        m.cleared = true ∧ m.newOrder < st.tokenCount) ∧
      (∀ a b ma mb, st.ms.get? a = some ma → st.ms.get? b = some mb → a ≠ b →
        (findSub mb.originalString ma.originalString).isSome = true →
        mb.newOrder ≠ 9999 → ma.cleared = true) ∧
      (∀ a b ma mb, st.ms.get? a = some ma → st.ms.get? b = some mb → a ≠ b →
        (findSub mb.originalString ma.originalString).isSome = true →
        ma.newOrder ≠ 9999 → mb.newOrder ≠ 9999 → ma.newOrder < mb.newOrder))
    _ ?step _ _ ?init
  case init =>
    exact ⟨rfl, Nat.zero_le _, fun k m hm => ⟨m, hm, rfl, rfl⟩,
      fun a b ma mb hma hmb hab hsub _ => hdep a b ma mb hma hmb hab hsub,
      fun k m hm hno => absurd (hinit k m hm) hno,
      fun a b ma mb hma hmb hab hsub hbn => absurd (hinit b mb hmb) hbn,
      fun a b ma mb hma hmb hab hsub han hbn => absurd (hinit a ma hma) han⟩
  case step =>
  intro st n hINV
  obtain ⟨hL, hT, hP, hI1, hI23, hI4, hI5⟩ := hINV
  split
  case isFalse => exact ⟨hL, hT, hP, hI1, hI23, hI4, hI5⟩
  case isTrue =>
    unfold bindingStep
    split
    case isTrue => exact ⟨hL, hT, hP, hI1, hI23, hI4, hI5⟩
    case isFalse htc0 =>
    have htc : st.tokenCount < availableTokens.length := by omega
    dsimp only
    -- the clearance-closure of the ms-level invariant, shared by the branches
    -- that adopt the scan's match list
    have hkey := scan_ms_preserve
      (fun ms : List Match =>
        ms.length = ms0.length ∧
        (∀ k m, ms.get? k = some m → ∃ m0, ms0.get? k = some m0 ∧
          m.originalString = m0.originalString ∧ m.token = m0.token) ∧
        (∀ a b ma mb, ms.get? a = some ma → ms.get? b = some mb → a ≠ b →
          (findSub mb.originalString ma.originalString).isSome = true →
          ma.cleared = false → tokf a ∈ mb.usedBy) ∧
        (∀ k m, ms.get? k = some m → m.newOrder ≠ 9999 →
          m.cleared = true ∧ m.newOrder < st.tokenCount) ∧
        (∀ a b ma mb, ms.get? a = some ma → ms.get? b = some mb → a ≠ b →
          (findSub mb.originalString ma.originalString).isSome = true →
          mb.newOrder ≠ 9999 → ma.cleared = true) ∧
        (∀ a b ma mb, ms.get? a = some ma → ms.get? b = some mb → a ≠ b →
          (findSub mb.originalString ma.originalString).isSome = true →
          ma.newOrder ≠ 9999 → mb.newOrder ≠ 9999 → ma.newOrder < mb.newOrder))
      (fun ms j mj hj hh =>
        msinv_clearMatch ms0 tokf st.tokenCount hdist htok0 ms j mj hj
          hh.1 hh.2.1 hh.2.2.1 hh.2.2.2.1 hh.2.2.2.2.1 hh.2.2.2.2.2)
      st.regPackOutput (getCharacterLength (availableTokens.getD st.tokenCount 0))
      st.ms ⟨hL, hP, hI1, hI23, hI4, hI5⟩
    split
    case isTrue =>
      exact ⟨hkey.1, hT, hkey.2.1, hkey.2.2.1, hkey.2.2.2.1,
        hkey.2.2.2.2.1, hkey.2.2.2.2.2⟩
    case isFalse hncl =>
    have hnc : (findBestForToken st.regPackOutput
        (getCharacterLength (availableTokens.getD st.tokenCount 0))
        st.ms).negativeCleared = false := by
      simpa using hncl
    obtain ⟨hmseq, hidxf⟩ := scan_noclear _ _ _ hnc
    split
    case h_1 =>
      exact ⟨hkey.1, hT, hkey.2.1, hkey.2.2.1, hkey.2.2.2.1,
        hkey.2.2.2.2.1, hkey.2.2.2.2.2⟩
    case h_2 idx hmi =>
    split
    case h_1 =>
      exact ⟨hkey.1, hT, hkey.2.1, hkey.2.2.1, hkey.2.2.2.1,
        hkey.2.2.2.2.1, hkey.2.2.2.2.2⟩
    case h_2 mjx hmjx =>
    rw [hmseq] at hmjx
    obtain ⟨msel, hmsel, husd0, hclr0⟩ := hidxf idx hmi
    have hmm : mjx = msel := by
      rw [hmjx] at hmsel
      exact (Option.some.injEq _ _ ▸ hmsel).symm ▸ rfl
    have husd : mjx.usedBy = [] := by rw [hmm]; exact husd0
    have hclr : mjx.cleared = false := by rw [hmm]; exact hclr0
    have hidxlen : idx < ms0.length := by
      have := (List.get?_eq_some.mp hmjx).1
      omega
    have htokidx : mjx.token = [tokf idx] := by
      obtain ⟨m0, h0, _, ht⟩ := hP idx mjx hmjx
      rw [ht]
      exact htok0 idx m0 h0
    -- the match list after recording the binding order
    have hset : ∀ k, ((findBestForToken st.regPackOutput
        (getCharacterLength (availableTokens.getD st.tokenCount 0))
        st.ms).ms.set idx { mjx with newOrder := st.tokenCount }).get? k =
        if idx = k
        then some { mjx with newOrder := st.tokenCount }
        else st.ms.get? k := by
      intro k
      rw [List.get?_set, hmseq]
      by_cases h : idx = k
      · subst h
        rw [hmjx]
        simp
      · rw [if_neg h, if_neg h]
    have hset_idx : ((findBestForToken st.regPackOutput
        (getCharacterLength (availableTokens.getD st.tokenCount 0))
        st.ms).ms.set idx { mjx with newOrder := st.tokenCount }).get? idx =
        some { mjx with newOrder := st.tokenCount } := by
      rw [hset idx, if_pos rfl]
    have hchar := clearMatch_get? _ idx { mjx with newOrder := st.tokenCount } hset_idx
    -- characterization of the final match list of this iteration
    have hchar3 : ∀ k m, (clearMatch ((findBestForToken st.regPackOutput
        (getCharacterLength (availableTokens.getD st.tokenCount 0))
        st.ms).ms.set idx { mjx with newOrder := st.tokenCount }) idx).get? k = some m →
        (idx = k ∧ m =
          { mjx with
            newOrder := st.tokenCount,
            usedBy := jsJoin [] (jsSplit mjx.token mjx.usedBy),
            cleared := true }) ∨
        (idx ≠ k ∧ ∃ mo, st.ms.get? k = some mo ∧
          m =
          { mo with
            usedBy := jsJoin [] (jsSplit mjx.token mo.usedBy),
            cleared := if k = idx then true else mo.cleared }) := by
      intro k m hm
      rw [hchar k, Option.map_eq_some'] at hm
      obtain ⟨mo, hmo, rfl⟩ := hm
      rw [hset k] at hmo
      by_cases h : idx = k
      · subst h
        rw [if_pos rfl] at hmo
        left
        refine ⟨rfl, ?_⟩
        obtain rfl := (Option.some.injEq _ _ ▸ hmo)
        simp
      · rw [if_neg h] at hmo
        right
        exact ⟨h, mo, hmo, rfl⟩
    have hlen3 : (clearMatch ((findBestForToken st.regPackOutput
        (getCharacterLength (availableTokens.getD st.tokenCount 0))
        st.ms).ms.set idx { mjx with newOrder := st.tokenCount }) idx).length =
        ms0.length := by
      rw [clearMatch_length, List.length_set, hmseq, hL]
    -- the invariant for the updated list at the advanced token cursor
    have hP3 : ∀ k m, (clearMatch ((findBestForToken st.regPackOutput
        (getCharacterLength (availableTokens.getD st.tokenCount 0))
        st.ms).ms.set idx { mjx with newOrder := st.tokenCount }) idx).get? k = some m →
        ∃ m0, ms0.get? k = some m0 ∧
          m.originalString = m0.originalString ∧ m.token = m0.token := by
      intro k m hm
      rcases hchar3 k m hm with ⟨heq, rfl⟩ | ⟨hne, mo, hmo, rfl⟩
      · subst heq
        obtain ⟨m0, h0, ho, ht⟩ := hP idx mjx hmjx
        exact ⟨m0, h0, ho, ht⟩
      · obtain ⟨m0, h0, ho, ht⟩ := hP k mo hmo
        exact ⟨m0, h0, ho, ht⟩
    have hI13 : ∀ a b ma mb, (clearMatch ((findBestForToken st.regPackOutput
        (getCharacterLength (availableTokens.getD st.tokenCount 0))
        st.ms).ms.set idx { mjx with newOrder := st.tokenCount }) idx).get? a = some ma →
        (clearMatch ((findBestForToken st.regPackOutput
        (getCharacterLength (availableTokens.getD st.tokenCount 0))
        st.ms).ms.set idx { mjx with newOrder := st.tokenCount }) idx).get? b = some mb →
        a ≠ b →
        (findSub mb.originalString ma.originalString).isSome = true →
        ma.cleared = false → tokf a ∈ mb.usedBy := by
      intro a b ma mb hma hmb hab hsub hcl
      rcases hchar3 a ma hma with ⟨heqa, rfl⟩ | ⟨hnea, mao, hmao, rfl⟩
      · subst heqa
        simp at hcl
      · have hcl' : mao.cleared = false := by
          have h2 : a ≠ idx := fun hh => hnea hh.symm
          simpa [h2] using hcl
        have hal : a < ms0.length := by
          have := (List.get?_eq_some.mp hmao).1
          omega
        rcases hchar3 b mb hmb with ⟨heqb, rfl⟩ | ⟨hneb, mbo, hmbo, rfl⟩
        · subst heqb
          have := hI1 a idx mao mjx hmao hmjx hab hsub hcl'
          rw [husd] at this
          simp at this
        · have hmem := hI1 a b mao mbo hmao hmbo hab hsub hcl'
          show tokf a ∈ jsJoin [] (jsSplit mjx.token mbo.usedBy)
          rw [htokidx, mem_removeTok]
          exact ⟨hmem, hdist a idx hal hidxlen (fun hh => hnea hh.symm)⟩
    have hI233 : ∀ k m, (clearMatch ((findBestForToken st.regPackOutput
        (getCharacterLength (availableTokens.getD st.tokenCount 0))
        st.ms).ms.set idx { mjx with newOrder := st.tokenCount }) idx).get? k = some m →
        m.newOrder ≠ 9999 → m.cleared = true ∧ m.newOrder < st.tokenCount + 1 := by
      intro k m hm hno
      rcases hchar3 k m hm with ⟨heq, rfl⟩ | ⟨hne, mo, hmo, rfl⟩
      · refine ⟨rfl, ?_⟩
        show st.tokenCount < st.tokenCount + 1
        omega
      · have h2 : k ≠ idx := fun hh => hne hh.symm
        have h23 := hI23 k mo hmo hno
        refine ⟨by simpa [h2] using h23.1, ?_⟩
        show mo.newOrder < st.tokenCount + 1
        omega
    have hI43 : ∀ a b ma mb, (clearMatch ((findBestForToken st.regPackOutput
        (getCharacterLength (availableTokens.getD st.tokenCount 0))
        st.ms).ms.set idx { mjx with newOrder := st.tokenCount }) idx).get? a = some ma →
        (clearMatch ((findBestForToken st.regPackOutput
        (getCharacterLength (availableTokens.getD st.tokenCount 0))
        st.ms).ms.set idx { mjx with newOrder := st.tokenCount }) idx).get? b = some mb →
        a ≠ b →
        (findSub mb.originalString ma.originalString).isSome = true →
        mb.newOrder ≠ 9999 → ma.cleared = true := by
      intro a b ma mb hma hmb hab hsub hbn
      rcases hchar3 a ma hma with ⟨heqa, rfl⟩ | ⟨hnea, mao, hmao, rfl⟩
      · simp
      · have h2a : a ≠ idx := fun hh => hnea hh.symm
        show (if a = idx then true else mao.cleared) = true
        rw [if_neg h2a]
        rcases hchar3 b mb hmb with ⟨heqb, rfl⟩ | ⟨hneb, mbo, hmbo, rfl⟩
        · subst heqb
          by_contra hfalse
          have hclf : mao.cleared = false := by
            cases hcc : mao.cleared
            · rfl
            · exact absurd hcc hfalse
          have := hI1 a idx mao mjx hmao hmjx hab hsub hclf
          rw [husd] at this
          simp at this
        · exact hI4 a b mao mbo hmao hmbo hab hsub hbn
    have hI53 : ∀ a b ma mb, (clearMatch ((findBestForToken st.regPackOutput
        (getCharacterLength (availableTokens.getD st.tokenCount 0))
        st.ms).ms.set idx { mjx with newOrder := st.tokenCount }) idx).get? a = some ma →
        (clearMatch ((findBestForToken st.regPackOutput
        (getCharacterLength (availableTokens.getD st.tokenCount 0))
        st.ms).ms.set idx { mjx with newOrder := st.tokenCount }) idx).get? b = some mb →
        a ≠ b →
        (findSub mb.originalString ma.originalString).isSome = true →
        ma.newOrder ≠ 9999 → mb.newOrder ≠ 9999 → ma.newOrder < mb.newOrder := by
      intro a b ma mb hma hmb hab hsub han hbn
      rcases hchar3 a ma hma with ⟨heqa, rfl⟩ | ⟨hnea, mao, hmao, rfl⟩
      · rcases hchar3 b mb hmb with ⟨heqb, rfl⟩ | ⟨hneb, mbo, hmbo, rfl⟩
        · exact absurd (heqa ▸ heqb.symm ▸ rfl : a = b) hab
        · have := hI4 idx b mjx mbo hmjx hmbo (by subst heqa; exact hab) hsub hbn
          rw [hclr] at this
          simp at this
      · rcases hchar3 b mb hmb with ⟨heqb, rfl⟩ | ⟨hneb, mbo, hmbo, rfl⟩
        · have := hI23 a mao hmao han
          exact this.2
        · exact hI5 a b mao mbo hmao hmbo hab hsub han hbn
    split
    case isTrue =>
      refine ⟨hlen3, ?_, hP3, hI13, hI233, hI43, hI53⟩
      show st.tokenCount + 1 ≤ availableTokens.length
      omega
    case isFalse =>
      refine ⟨hlen3, ?_, hP3, hI13, hI233, hI43, hI53⟩
      show st.tokenCount + 1 ≤ availableTokens.length
      omega

/-- C4 counterexample: a concrete run of the dependency pass and the binding
loop in which match 0 (original "abcd") contains match 1 (original "abc"),
both end up bound, and the container is bound first (newOrder 0 against 1) —
the opposite of the claimed order, under which the contained match would have
the smaller newOrder. -/
theorem C4_counterexample :
    ∃ (availableTokens : List Nat) (ms0 : List Match) (contents : JSStr),
      ∃ (a b : Nat) (ma mb : Match),
        (bindingLoop availableTokens (buildDependencyGraph ms0) contents).ms.get? a =
          some ma ∧
        (bindingLoop availableTokens (buildDependencyGraph ms0) contents).ms.get? b =
          some mb ∧
        a ≠ b ∧
        (findSub mb.originalString ma.originalString).isSome = true ∧
        ma.newOrder ≠ 9999 ∧ mb.newOrder ≠ 9999 ∧
        ¬ mb.newOrder < ma.newOrder := by
  refine ⟨[49, 50],
    [{ token := [88], string := strU "abcd", originalString := strU "abcd",
       depends := [], usedBy := [], gain := 0, copies := 2, len := 4, score := 0,
       cleared := false, newOrder := 9999 },
     { token := [89], string := strU "abc", originalString := strU "abc",
       depends := [], usedBy := [], gain := 0, copies := 3, len := 3, score := 0,
       cleared := false, newOrder := 9999 }],
    strU "abcdabcdabcabcabc", 0, 1,
    { token := [88], string := strU "abcd", originalString := strU "abcd",
      depends := [89], usedBy := [], gain := 0, copies := 2, len := 4, score := 0,
      cleared := true, newOrder := 0 },
    { token := [89], string := strU "abc", originalString := strU "abc",
      depends := [], usedBy := [], gain := 0, copies := 3, len := 3, score := 0,
      cleared := true, newOrder := 1 },
    ?_, ?_, ?_, ?_, ?_, ?_, ?_⟩ <;> decide

/-- C4 amended: the dependency ordering of the allocators is the reverse of
the claimed one: when the dependency pass has recorded, for every pair in
which i's original string contains j's original string, i's token in j's
usedBy string (tokens being pairwise distinct single characters, binding
orders initially unset and the token supply shorter than the unset marker
9999), then for every pair of BOUND replacements i and j where i's original
string contains j's original string, i is bound BEFORE j: i's newOrder is
smaller than j's (the container first; during decode its token is restored
last, after the tokens of the matches it contains). -/
theorem C4_amended (availableTokens : List Nat) (ms0 : List Match)
    (contents : JSStr) (tokf : Nat → Nat)
    (hdist : ∀ k l, k < ms0.length → l < ms0.length → k ≠ l → tokf k ≠ tokf l)
    (htok0 : ∀ k m, ms0.get? k = some m → m.token = [tokf k])
    (hdep : ∀ a b ma mb, ms0.get? a = some ma → ms0.get? b = some mb → a ≠ b →
      (findSub mb.originalString ma.originalString).isSome = true →
      tokf a ∈ mb.usedBy)
    (hinit : ∀ k m, ms0.get? k = some m → m.newOrder = 9999)
    (havail : availableTokens.length ≤ 9999) :
    ∀ a b ma mb,
      (bindingLoop availableTokens ms0 contents).ms.get? a = some ma →
      (bindingLoop availableTokens ms0 contents).ms.get? b = some mb →
      a ≠ b →
      (findSub mb.originalString ma.originalString).isSome = true →
      ma.newOrder ≠ 9999 → mb.newOrder ≠ 9999 →
      ma.newOrder < mb.newOrder :=
  (bindingLoop_invariant availableTokens ms0 contents tokf hdist htok0 hdep
    hinit havail).2.2.2.2.2.2

theorem C4_amended_witness :
    (bindingLoop [49, 50]
      [{ token := [88], string := strU "abcd", originalString := strU "abcd",
         depends := [89], usedBy := [], gain := 0, copies := 2, len := 4, score := 0,
         cleared := false, newOrder := 9999 },
       { token := [89], string := strU "abc", originalString := strU "abc",
         depends := [], usedBy := [88], gain := 0, copies := 3, len := 3, score := 0,
         cleared := false, newOrder := 9999 }]
      (strU "abcdabcdabcabcabc")).ms.get? 0 =
      some { token := [88], string := strU "abcd", originalString := strU "abcd",
             depends := [89], usedBy := [], gain := 0, copies := 2, len := 4,
             score := 0, cleared := true, newOrder := 0 } ∧
    (bindingLoop [49, 50]
      [{ token := [88], string := strU "abcd", originalString := strU "abcd",
         depends := [89], usedBy := [], gain := 0, copies := 2, len := 4, score := 0,
         cleared := false, newOrder := 9999 },
       { token := [89], string := strU "abc", originalString := strU "abc",
         depends := [], usedBy := [88], gain := 0, copies := 3, len := 3, score := 0,
         cleared := false, newOrder := 9999 }]
      (strU "abcdabcdabcabcabc")).ms.get? 1 =
      some { token := [89], string := strU "abc", originalString := strU "abc",
             depends := [], usedBy := [], gain := 0, copies := 3, len := 3,
             score := 0, cleared := true, newOrder := 1 } ∧
    (0 : Nat) < 1 := by
  refine ⟨by decide, by decide, ?_⟩
  have happ := C4_amended [49, 50]
    [{ token := [88], string := strU "abcd", originalString := strU "abcd",
       depends := [89], usedBy := [], gain := 0, copies := 2, len := 4, score := 0,
       cleared := false, newOrder := 9999 },
     { token := [89], string := strU "abc", originalString := strU "abc",
       depends := [], usedBy := [88], gain := 0, copies := 3, len := 3, score := 0,
       cleared := false, newOrder := 9999 }]
    (strU "abcdabcdabcabcabc")
    (fun k => if k = 0 then 88 else 89)
    (by
      intro k l hk hl hne
      simp only [List.length_cons, List.length_nil] at hk hl
      by_cases h1 : k = 0
      · by_cases h2 : l = 0
        · exact absurd (h1.trans h2.symm) hne
        · simp [h1, h2]
      · by_cases h2 : l = 0
        · simp [h1, h2]
        · exact absurd (by omega : k = l) hne)
    (by
      intro k m hm
      rcases k with _ | _ | k
      · simp only [List.get?] at hm
        cases hm
        decide
      · simp only [List.get?] at hm
        cases hm
        decide
      · simp only [List.get?] at hm
        exact Option.noConfusion hm)
    (by
      intro a b ma mb hma hmb hne hsub
      rcases a with _ | _ | a <;> rcases b with _ | _ | b <;>
        simp only [List.get?] at hma hmb
      · exact absurd rfl hne
      · cases hma
        cases hmb
        decide
      · exact Option.noConfusion hmb
      · cases hma
        cases hmb
        exact absurd hsub (by decide)
      · exact absurd rfl hne
      · exact Option.noConfusion hmb
      · exact Option.noConfusion hma
      · exact Option.noConfusion hma
      · exact Option.noConfusion hma)
    (by
      intro k m hm
      rcases k with _ | _ | k
      · simp only [List.get?] at hm
        cases hm
        decide
      · simp only [List.get?] at hm
        cases hm
        decide
      · simp only [List.get?] at hm
        exact Option.noConfusion hm)
    (by decide)
    0 1
    { token := [88], string := strU "abcd", originalString := strU "abcd",
      depends := [89], usedBy := [], gain := 0, copies := 2, len := 4,
      score := 0, cleared := true, newOrder := 0 }
    { token := [89], string := strU "abc", originalString := strU "abc",
      depends := [], usedBy := [], gain := 0, copies := 3, len := 3,
      score := 0, cleared := true, newOrder := 1 }
    (by decide) (by decide) (by decide) (by decide) (by decide) (by decide)
  exact happ

/-! ### The beam retention pipeline (claim C7) -/

theorem candLE_refl (opts : PackerOptions) (a : BeamSearchSolver.State) :
    BeamSearchSolver.candLE opts a a := by
  simp [BeamSearchSolver.candLE, BeamSearchSolver.candCmp]

theorem dedup_not_seen :
    ∀ (l : List BeamSearchSolver.State) (seen : List JSStr)
      (x : BeamSearchSolver.State),
      x ∈ BeamSearchSolver.dedupByText seen l → x.text ∉ seen := by
  intro l
  induction l with
  | nil =>
    intro seen x hx
    simp [BeamSearchSolver.dedupByText] at hx
  | cons c cs ih =>
    intro seen x hx
    unfold BeamSearchSolver.dedupByText at hx
    split at hx
    · exact ih seen x hx
    · rename_i hcs
      rcases List.mem_cons.mp hx with rfl | hx'
      · exact hcs
      · have h2 := ih _ x hx'
        intro hc
        exact h2 (List.mem_append_left _ hc)

theorem dedup_subset :
    ∀ (l : List BeamSearchSolver.State) (seen : List JSStr)
      (x : BeamSearchSolver.State),
      x ∈ BeamSearchSolver.dedupByText seen l → x ∈ l := by
  intro l
  induction l with
  | nil =>
    intro seen x hx
    simpa [BeamSearchSolver.dedupByText] using hx
  | cons c cs ih =>
    intro seen x hx
    unfold BeamSearchSolver.dedupByText at hx
    split at hx
    · exact List.mem_cons_of_mem c (ih _ x hx)
    · rcases List.mem_cons.mp hx with rfl | hx'
      · exact List.mem_cons_self _ _
      · exact List.mem_cons_of_mem c (ih _ x hx')

theorem dedup_best (opts : PackerOptions) :
    ∀ (l : List BeamSearchSolver.State) (seen : List JSStr)
      (x y : BeamSearchSolver.State),
      l.Pairwise (BeamSearchSolver.candLE opts) →
      x ∈ BeamSearchSolver.dedupByText seen l → y ∈ l → y.text = x.text →
      BeamSearchSolver.candLE opts x y := by
  intro l
  induction l with
  | nil =>
    intro seen x y _ hx _ _
    simp [BeamSearchSolver.dedupByText] at hx
  | cons c cs ih =>
    intro seen x y hpw hx hy htext
    rw [List.pairwise_cons] at hpw
    unfold BeamSearchSolver.dedupByText at hx
    split at hx
    · rename_i hcseen
      rcases List.mem_cons.mp hy with rfl | hy'
      · have hxn := dedup_not_seen cs seen x hx
        rw [← htext] at hxn
        exact absurd hcseen hxn
      · exact ih seen x y hpw.2 hx hy' htext
    · rename_i hcseen
      rcases List.mem_cons.mp hx with rfl | hx'
      · rcases List.mem_cons.mp hy with rfl | hy'
        · exact candLE_refl opts y
        · exact hpw.1 y hy'
      · rcases List.mem_cons.mp hy with rfl | hy'
        · have hxn := dedup_not_seen cs _ x hx'
          rw [List.mem_append] at hxn
          push_neg at hxn
          exact absurd (htext ▸ List.mem_singleton_self _) hxn.2
        · exact ih _ x y hpw.2 hx' hy' htext

/-- C7 amended: the retention step of each beam iteration sorts the
candidates first (prioritizeHighestGain: by cumulative gain with predicted
score as tiebreaker, otherwise by predicted score with cumulative gain as
tiebreaker), then deduplicates by text keeping the first — and hence
best-ranked — occurrence of each text, then cuts to the beam width.  The
claimed order (deduplicate keeping insertion order, then sort) is wrong, but
the implemented order retains, for each surviving text, a representative
that ranks no worse than every candidate sharing its text: every retained
candidate x is one of the candidates, and sorts no later than any candidate
y with the same text. -/
theorem C7_retention (opts : PackerOptions) (w : Nat)
    (cands : List BeamSearchSolver.State) (x y : BeamSearchSolver.State)
    (hx : x ∈ BeamSearchSolver.retainBeam opts w cands) (hy : y ∈ cands)
    (htext : y.text = x.text) :
    BeamSearchSolver.candLE opts x y ∧ x ∈ cands := by
  have hx' : x ∈ BeamSearchSolver.dedupByText []
      (BeamSearchSolver.sortCandidates opts cands) :=
    List.mem_of_mem_take hx
  have hsorted : (BeamSearchSolver.sortCandidates opts cands).Pairwise
      (BeamSearchSolver.candLE opts) :=
    List.sorted_insertionSort _ _
  have hperm : List.Perm (BeamSearchSolver.sortCandidates opts cands) cands :=
    List.perm_insertionSort _ _
  have hy' : y ∈ BeamSearchSolver.sortCandidates opts cands :=
    hperm.mem_iff.mpr hy
  exact ⟨dedup_best opts _ [] x y hsorted hx' hy' htext,
    hperm.mem_iff.mp (dedup_subset _ [] x hx')⟩

theorem C7_retention_witness :
    ({ text := [116], tokens := [], replacements := [], availablePatterns := [],
       score := 5, predictedScore := 5, depth := 1 : BeamSearchSolver.State } ∈
      BeamSearchSolver.retainBeam {} 1
        [{ text := [116], tokens := [], replacements := [], availablePatterns := [],
           score := 5, predictedScore := 5, depth := 1 }]) ∧
    BeamSearchSolver.candLE {}
      { text := [116], tokens := [], replacements := [], availablePatterns := [],
        score := 5, predictedScore := 5, depth := 1 }
      { text := [116], tokens := [], replacements := [], availablePatterns := [],
        score := 5, predictedScore := 5, depth := 1 } :=
  ⟨by decide,
   (C7_retention {} 1
     [{ text := [116], tokens := [], replacements := [], availablePatterns := [],
        score := 5, predictedScore := 5, depth := 1 }]
     { text := [116], tokens := [], replacements := [], availablePatterns := [],
       score := 5, predictedScore := 5, depth := 1 }
     { text := [116], tokens := [], replacements := [], availablePatterns := [],
       score := 5, predictedScore := 5, depth := 1 }
     (by decide) (by decide) rfl).1⟩

/-- C7 counterexample: with two candidates carrying the same text, the
claimed pipeline (deduplicate by text keeping insertion order, then sort and
cut) would retain the first-inserted, lower-ranked candidate, while the code
(sort, then deduplicate, then cut) retains the higher-ranked one; the two
pipelines produce different beams. -/
theorem C7_counterexample :
    BeamSearchSolver.retainBeam { prioritizeHighestGain := true } 5
        [{ text := [116], tokens := [], replacements := [], availablePatterns := [],
           score := 5, predictedScore := 5, depth := 1 },
         { text := [116], tokens := [], replacements := [], availablePatterns := [],
           score := 10, predictedScore := 10, depth := 1 }] =
      [{ text := [116], tokens := [], replacements := [], availablePatterns := [],
         score := 10, predictedScore := 10, depth := 1 }] ∧
    BeamSearchSolver.specRetainBeam { prioritizeHighestGain := true } 5
        [{ text := [116], tokens := [], replacements := [], availablePatterns := [],
           score := 5, predictedScore := 5, depth := 1 },
         { text := [116], tokens := [], replacements := [], availablePatterns := [],
           score := 10, predictedScore := 10, depth := 1 }] =
      [{ text := [116], tokens := [], replacements := [], availablePatterns := [],
         score := 5, predictedScore := 5, depth := 1 }] ∧
    BeamSearchSolver.retainBeam { prioritizeHighestGain := true } 5
        [{ text := [116], tokens := [], replacements := [], availablePatterns := [],
           score := 5, predictedScore := 5, depth := 1 },
         { text := [116], tokens := [], replacements := [], availablePatterns := [],
           score := 10, predictedScore := 10, depth := 1 }] ≠
      BeamSearchSolver.specRetainBeam { prioritizeHighestGain := true } 5
        [{ text := [116], tokens := [], replacements := [], availablePatterns := [],
           score := 5, predictedScore := 5, depth := 1 },
         { text := [116], tokens := [], replacements := [], availablePatterns := [],
           score := 10, predictedScore := 10, depth := 1 }] := by
  refine ⟨by decide, by decide, by decide⟩

/-! ### The best-solution tracking of the beam search (claim C8) -/

theorem take_head {α : Type _} (w : Nat) (l : List α) (b0 : α) (rest : List α)
    (h : l.take w = b0 :: rest) : ∃ l', l = b0 :: l' := by
  cases l with
  | nil => simp at h
  | cons c l' =>
    cases w with
    | zero => simp at h
    | succ w =>
      rw [List.take_succ_cons] at h
      exact ⟨l', by rw [(List.cons.injEq _ _ _ _ ▸ h : c = b0 ∧ _).1]⟩

theorem dedup_nil_cons (c : BeamSearchSolver.State)
    (cs : List BeamSearchSolver.State) :
    BeamSearchSolver.dedupByText [] (c :: cs) =
      c :: BeamSearchSolver.dedupByText [c.text] cs := by
  conv_lhs => simp only [BeamSearchSolver.dedupByText]
  simp

theorem retainBeam_head (opts : PackerOptions) (w : Nat)
    (cands : List BeamSearchSolver.State) (b0 : BeamSearchSolver.State)
    (rest : List BeamSearchSolver.State)
    (h : BeamSearchSolver.retainBeam opts w cands = b0 :: rest) :
    ∀ y ∈ cands, BeamSearchSolver.candLE opts b0 y := by
  unfold BeamSearchSolver.retainBeam at h
  obtain ⟨l', hl⟩ := take_head w _ b0 rest h
  have hsorted : ∃ s', BeamSearchSolver.sortCandidates opts cands = b0 :: s' := by
    cases hs : BeamSearchSolver.sortCandidates opts cands with
    | nil =>
      rw [hs] at hl
      simp [BeamSearchSolver.dedupByText] at hl
    | cons c cs =>
      rw [hs, dedup_nil_cons] at hl
      exact ⟨cs, by rw [(List.cons.injEq _ _ _ _ ▸ hl : c = b0 ∧ _).1] at hs ⊢⟩
  obtain ⟨s', hs⟩ := hsorted
  have hpw : (BeamSearchSolver.sortCandidates opts cands).Pairwise
      (BeamSearchSolver.candLE opts) := List.sorted_insertionSort _ _
  rw [hs, List.pairwise_cons] at hpw
  have hperm : List.Perm (BeamSearchSolver.sortCandidates opts cands) cands :=
    List.perm_insertionSort _ _
  intro y hy
  have hy' : y ∈ b0 :: s' := by
    rw [← hs]
    exact hperm.mem_iff.mpr hy
  rcases List.mem_cons.mp hy' with rfl | hy''
  · exact candLE_refl opts y
  · exact hpw.1 y hy''

theorem retainBeam_ne_nil (opts : PackerOptions) (w : Nat) (hw : 0 < w)
    (c0 : BeamSearchSolver.State) (cs : List BeamSearchSolver.State) :
    BeamSearchSolver.retainBeam opts w (c0 :: cs) ≠ [] := by
  unfold BeamSearchSolver.retainBeam
  cases hs : BeamSearchSolver.sortCandidates opts (c0 :: cs) with
  | nil =>
    have hlen := (List.perm_insertionSort (BeamSearchSolver.candLE opts)
      (c0 :: cs)).length_eq
    rw [show BeamSearchSolver.sortCandidates opts (c0 :: cs) =
      List.insertionSort (BeamSearchSolver.candLE opts) (c0 :: cs) from rfl] at hs
    rw [hs] at hlen
    simp at hlen
  | cons c cs' =>
    rw [dedup_nil_cons]
    cases w with
    | zero => exact absurd hw (lt_irrefl 0)
    | succ w => simp

theorem candLE_score (opts : PackerOptions)
    (hprio : opts.prioritizeHighestGain = true) (a b : BeamSearchSolver.State)
    (h : BeamSearchSolver.candLE opts a b) : b.score ≤ a.score := by
  unfold BeamSearchSolver.candLE BeamSearchSolver.candCmp at h
  rw [hprio] at h
  by_cases hs : a.score = b.score
  · omega
  · rw [if_pos ⟨rfl, hs⟩] at h
    omega

theorem beamIteration_bound (opts : PackerOptions)
    (hprio : opts.prioritizeHighestGain = true) (w maxReps lookAhead : Nat)
    (hw : 0 < w) (ls : BeamSearchSolver.LoopState) :
    ls.best.score ≤
      (BeamSearchSolver.beamIteration opts w maxReps lookAhead ls).1.best.score ∧
    ∀ y ∈ (BeamSearchSolver.beamIteration opts w maxReps lookAhead ls).2.1,
      y.score ≤
        (BeamSearchSolver.beamIteration opts w maxReps lookAhead ls).1.best.score := by
  unfold BeamSearchSolver.beamIteration
  dsimp only
  split
  case h_1 =>
    refine ⟨le_refl _, ?_⟩
    intro y hy
    simp at hy
  case h_2 c0 cs hcands =>
    cases hbeam : BeamSearchSolver.retainBeam opts w (c0 :: cs) with
    | nil => exact absurd hbeam (retainBeam_ne_nil opts w hw c0 cs)
    | cons b0 brest =>
      dsimp only
      have hhead := retainBeam_head opts w (c0 :: cs) b0 brest hbeam
      split
      case isTrue hlt =>
        refine ⟨le_of_lt hlt, ?_⟩
        intro y hy
        exact candLE_score opts hprio b0 y (hhead y hy)
      case isFalse hlt =>
        refine ⟨le_refl _, ?_⟩
        intro y hy
        have := candLE_score opts hprio b0 y (hhead y hy)
        omega

theorem beamLoop_bound (opts : PackerOptions)
    (hprio : opts.prioritizeHighestGain = true) (w maxReps lookAhead : Nat)
    (hw : 0 < w) :
    ∀ (fuel : Nat) (ls : BeamSearchSolver.LoopState),
      ls.best.score ≤
        (BeamSearchSolver.beamLoop opts w maxReps lookAhead fuel ls).1.score ∧
      ∀ st ∈ (BeamSearchSolver.beamLoop opts w maxReps lookAhead fuel ls).2.flatten,
        st.score ≤
          (BeamSearchSolver.beamLoop opts w maxReps lookAhead fuel ls).1.score := by
  intro fuel
  induction fuel with
  | zero =>
    intro ls
    refine ⟨le_refl _, ?_⟩
    intro st hst
    simp [BeamSearchSolver.beamLoop] at hst
  | succ fuel ih =>
    intro ls
    obtain ⟨hb1, hb2⟩ := beamIteration_bound opts hprio w maxReps lookAhead hw ls
    unfold BeamSearchSolver.beamLoop
    dsimp only
    split
    case isTrue =>
      obtain ⟨ih1, ih2⟩ :=
        ih (BeamSearchSolver.beamIteration opts w maxReps lookAhead ls).1
      refine ⟨le_trans hb1 ih1, ?_⟩
      intro st hst
      rw [List.flatten_cons, List.mem_append] at hst
      rcases hst with hst | hst
      · exact le_trans (hb2 st hst) ih1
      · exact ih2 st hst
    case isFalse =>
      refine ⟨hb1, ?_⟩
      intro st hst
      simp only [List.flatten, List.append_nil] at hst
      exact hb2 st hst

/-- C8 amended: only the head of each iteration's retained beam updates the
best solution, so a candidate that is never ranked first can be lost even if
its cumulative gain dominates (the worker variant, which records every
created state, does not lose it); however when prioritizeHighestGain is set
the beam head maximises cumulative gain among the iteration's candidates,
and the returned solution's cumulative gain is at least that of every
candidate generated at any iteration. -/
theorem C8_best_bound (opts : PackerOptions) (contents : JSStr)
    (hprio : opts.prioritizeHighestGain = true) :
    ∀ st ∈ (BeamSearchSolver.findOptimalReplacements opts contents).2.flatten,
      st.score ≤ (BeamSearchSolver.findOptimalReplacements opts contents).1.score := by
  unfold BeamSearchSolver.findOptimalReplacements
  exact (beamLoop_bound opts hprio _ _ _
    (by by_cases h : opts.beamWidth = 0 <;> simp [h] <;> omega) 100000 _).2

theorem C8_best_bound_witness :
    (⟨strU "aaaa", [], [],
      [⟨[], [97, 97], [97, 97], [], [], -2, 2, 2, -2, false, 9999⟩],
      0, 0, 0⟩ : BeamSearchSolver.State) ∈
      (BeamSearchSolver.findOptimalReplacements
        ⟨1, 0, 0, 1, true, 1, 0, 1, 1, true⟩ (strU "aaaa")).2.flatten ∧
    (⟨strU "aaaa", [], [],
      [⟨[], [97, 97], [97, 97], [], [], -2, 2, 2, -2, false, 9999⟩],
      0, 0, 0⟩ : BeamSearchSolver.State).score ≤
      (BeamSearchSolver.findOptimalReplacements
        ⟨1, 0, 0, 1, true, 1, 0, 1, 1, true⟩ (strU "aaaa")).1.score :=
  ⟨by decide, C8_best_bound ⟨1, 0, 0, 1, true, 1, 0, 1, 1, true⟩ (strU "aaaa")
    rfl _ (by decide)⟩

/-- C8 counterexample: with the default ranking (prioritizeHighestGain off,
so predictedScore decides the sort and hence the beam head), a state whose
cumulative actual gain strictly exceeds that of every other state ever
generated enters the candidate set at some iteration but is not the solution
returned: only the head of the retained beam can update the best solution,
and here the head is a lower-gain state with a higher predicted score. -/
theorem C8_counterexample :
    ∃ st ∈ (BeamSearchSolver.findOptimalReplacements
      { beamWidth := 1, maxReplacements := 1, lookAheadDepth := 1 }
      (strU "abeabeabeabeabdabdabdabd")).2.flatten,
      (BeamSearchSolver.findOptimalReplacements
        { beamWidth := 1, maxReplacements := 1, lookAheadDepth := 1 }
        (strU "abeabeabeabeabdabdabdabd")).1.score < st.score := by
  decide

/-! ### Round-trip and the in-process verification (claim C1) -/

/-- C1: the round-trip claim fails in the Crusher builder.  On the input
"x`;y" the packer returns an artefact of positive length whose packed
template literal is the correctly escaped input (so a decoder that parses
the literal respecting escapes reproduces the input exactly: unescaping the
literal and running the token-class decode over the empty class returns the
original string), yet the in-process verification reports a failed final
check: verifyUnpacking extracts the literal by searching for the first
backtick-semicolon pair, which here occurs inside the escaped backtick of
the literal itself, so the extracted test string is truncated and the
comparison fails on a correct artefact. -/
theorem C1_roundtrip_bug :
    0 < ((Crusher.runPacker (fun _ => 0) {} (strU "x`;y")).getD 1
      ⟨0, [], []⟩).length ∧
    ((Crusher.runPacker (fun _ => 0) {} (strU "x`;y")).getD 1 ⟨0, [], []⟩).output =
      strU "for(_=" ++ [96] ++ [120, 92, 96, 59, 121] ++ [96] ++
      strU ";G=/[]/.exec(_);)with(_.split(G))_=join(shift());eval(_)" ∧
    decodeLoop (charClassMembers []) 5
      (marLoop [92, 92] [92] (marLoop [92, 96] [96] [120, 92, 96, 59, 121])) =
      strU "x`;y" ∧
    ReportItem.finalCheck false ∈
      ((Crusher.runPacker (fun _ => 0) {} (strU "x`;y")).getD 1 ⟨0, [], []⟩).report := by
  exact ⟨by decide, by decide, by decide, by decide⟩
